import Mathlib

/-!
# Terminal audio player: playback session, seek, marquee and progress bar

A shallow embedding of `src/main.cpp`.

* C++ `int` values are `Int`, `size_t` values are `Nat`; the two conversions the
  program performs between them (`toInt`, `toSizeT`, `sizeSub`) wrap explicitly.
  `currentTrack + 1` and `currentTrack - 1` are signed additions, which do not
  overflow as long as the track count fits an `int`.
* `sf::Time` values are exact integer microseconds.
* A `float` is the rational number it holds; every `float` operation of
  `createProgressBar` is the exact operation followed by `roundToFloat`, the rounding
  to the nearest IEEE 754 binary32 value (ties to even). No value of that function
  reaches the overflow threshold `2^128` when the times are `Int64` and the width an
  `int`, so infinities are not represented.
* `std::chrono::steady_clock` readings are integer nanoseconds; every read of the
  clock is an explicit argument.
* A `std::string` is the list of its `char`s.
* The outcome of `music.openFromFile` is an explicit argument (`none`: the file
  cannot be opened, `some d`: it opens and lasts `d` microseconds).
* One iteration of the input thread loop and one iteration of the render loop
  are each one step of the session.
-/

namespace CliAudioPlayer

/-! ## Machine integers -/

/-- Largest value of a C++ `int`. -/
def INT_MAX : Int := 2147483647

/-- Smallest value of a C++ `int`. -/
def INT_MIN : Int := -2147483648

/-- Conversion of a `size_t` value to `int` (two's complement wrap). -/
def toInt (x : Nat) : Int := ((x : Int) + 2147483648) % 4294967296 - 2147483648

/-- Conversion of an `int` value to `size_t` (reduction modulo `2^64`). -/
def toSizeT (x : Int) : Nat := (x % 18446744073709551616).toNat

/-- Subtraction of two `size_t` values (modulo `2^64`). -/
def sizeSub (a b : Nat) : Nat :=
  (((a : Int) - (b : Int)) % 18446744073709551616).toNat

/-! ## `MarqueeText` -/

/-- The class `MarqueeText`: `lastUpdate` is a clock reading in nanoseconds, `delay` is in
milliseconds. -/
structure MarqueeText where
  text : List Char
  position : Nat
  displayWidth : Nat
  lastUpdate : Int
  delay : Int
  needsMarquee : Bool
deriving DecidableEq, Repr

/-- Constructor `MarqueeText(t, width, delay)`; `now` is the clock reading it takes. -/
def MarqueeText.new (t : List Char) (width : Nat) (delay : Int) (now : Int) : MarqueeText :=
  { text := t, position := 0, displayWidth := width, lastUpdate := now, delay := delay,
    needsMarquee := decide (t.length > width) }

/-- Member `getDisplayText()`; `now` is the clock reading it takes. Returns the displayed string
and the updated object. -/
def MarqueeText.getDisplayText (m : MarqueeText) (now : Int) : List Char × MarqueeText :=
  if !m.needsMarquee then (m.text, m)
  else
    let m :=
      if now - m.lastUpdate > m.delay * 1000000 then
        { m with position := (m.position + 1) % (m.text.length + 3), lastUpdate := now }
      else m
    let display := (List.range m.displayWidth).foldl
      (fun display i =>
        let textPos := (m.position + i) % (m.text.length + 3)
        if h : textPos < m.text.length then display ++ [m.text[textPos]]
        else display ++ [' '])
      []
    (display, m)

/-- The object after `getDisplayText()` has been called at each of the clock readings `times`,
in order. -/
def MarqueeText.afterCalls (m : MarqueeText) (times : List Int) : MarqueeText :=
  times.foldl (fun m now => (m.getDisplayText now).2) m

/-! ## The playback engine -/

/-- The enumeration `sf::SoundSource::Status`. -/
inductive Status
  | Stopped
  | Paused
  | Playing
deriving DecidableEq, Repr

/-- Modelled from the spec: the playback engine `sf::Music`, as the engine contract describes
it: a status, the current offset and the duration of the opened file (microseconds). -/
structure Music where
  status : Status
  playingOffset : Int
  duration : Int
deriving DecidableEq, Repr

/-- Modelled from the spec: a default-constructed `sf::Music`. -/
def Music.init : Music := { status := Status.Stopped, playingOffset := 0, duration := 0 }

/-- Modelled from the spec: `stop()` stops playback and rewinds. -/
def Music.stop (m : Music) : Music := { m with status := Status.Stopped, playingOffset := 0 }

/-- Modelled from the spec: `play()` starts or resumes playback. -/
def Music.play (m : Music) : Music := { m with status := Status.Playing }

/-- Modelled from the spec: `pause()` pauses a playing stream and has no effect otherwise. -/
def Music.pause (m : Music) : Music :=
  if m.status = Status.Playing then { m with status := Status.Paused } else m

/-- Modelled from the spec: `getStatus()`. -/
def Music.getStatus (m : Music) : Status := m.status

/-- Modelled from the spec: `getPlayingOffset()`. -/
def Music.getPlayingOffset (m : Music) : Int := m.playingOffset

/-- Modelled from the spec: `getDuration()`. -/
def Music.getDuration (m : Music) : Int := m.duration

/-- Modelled from the spec: `setPlayingOffset(t)` moves the offset to the requested value. -/
def Music.setPlayingOffset (m : Music) (t : Int) : Music := { m with playingOffset := t }

/-- Modelled from the spec: `openFromFile(path)`; `opened` is the outcome (`none` when the file
cannot be opened, `some d` when it opens with duration `d`). The stream is stopped either way. -/
def Music.openFromFile (m : Music) (opened : Option Int) : Bool × Music :=
  match opened with
  | some d => (true, { status := Status.Stopped, playingOffset := 0, duration := d })
  | none => (false, m.stop)

/-! ## The session -/

/-- The variables of `main` shared by the input thread and the render loop. `laguList` holds the
file name of every track. -/
structure Player where
  laguList : List (List Char)
  currentTrack : Int
  stop : Bool
  paused : Bool
  music : Music
  marquee : Option MarqueeText
deriving DecidableEq, Repr

/-- The constant `jumpDuration = sf::seconds(10)`, in microseconds. -/
def jumpDuration : Int := 10000000

/-- The lambda `loadAndPlay(trackIndex)`; `opened` is the outcome of `openFromFile`, `now` the
clock reading of the new marquee. -/
def loadAndPlay (trackIndex : Int) (opened : Option Int) (now : Int) (s : Player) :
    Bool × Player :=
  let trackIndex :=
    if trackIndex < 0 then toInt (sizeSub s.laguList.length 1)
    else if toSizeT trackIndex ≥ s.laguList.length then 0
    else trackIndex
  match s.music.openFromFile opened with
  | (true, music) =>
    (true, { s with
      currentTrack := trackIndex
      marquee := some (MarqueeText.new (s.laguList.getD (toSizeT trackIndex) []) 26 200 now)
      music := music.play })
  | (false, music) => (false, { s with music := music })

/-- The body of the input thread loop once `cmd` has been read. -/
def command (cmd : Char) (opened : Option Int) (now : Int) (s : Player) : Player :=
  let cmd := cmd.toLower
  if cmd = 'p' then
    if !s.paused then { s with music := s.music.pause, paused := true }
    else { s with music := s.music.play, paused := false }
  else if cmd = 's' then { s with music := s.music.stop, paused := false }
  else if cmd = 'f' then
    let newTime := s.music.getPlayingOffset + jumpDuration
    if newTime < s.music.getDuration then { s with music := s.music.setPlayingOffset newTime }
    else { s with music := s.music.setPlayingOffset s.music.getDuration }
  else if cmd = 'r' then
    let newTime := s.music.getPlayingOffset - jumpDuration
    if newTime > 0 then { s with music := s.music.setPlayingOffset newTime }
    else { s with music := s.music.setPlayingOffset 0 }
  else if cmd = 'n' then
    (loadAndPlay (s.currentTrack + 1) opened now { s with music := s.music.stop }).2
  else if cmd = 'b' then
    (loadAndPlay (s.currentTrack - 1) opened now { s with music := s.music.stop }).2
  else if cmd = 'q' then { s with stop := true, music := s.music.stop }
  else s

/-- One iteration of the input thread loop `while (!stop)`. -/
def inputStep (cmd : Char) (opened : Option Int) (now : Int) (s : Player) : Player :=
  if !s.stop then command cmd opened now s else s

/-- The index `nextTrackIndex` computed by the render loop. -/
def nextTrackIndex (s : Player) : Int :=
  toInt (toSizeT (s.currentTrack + 1) % s.laguList.length)

/-- One iteration of the render loop `while (!stop)`: the frame is drawn at clock reading
`drawn` (which advances the marquee), then the auto-advance check runs. When the loop is left,
`stop = true` is stored. -/
def renderStep (drawn : Int) (opened : Option Int) (now : Int) (s : Player) : Player :=
  if !s.stop then
    let s := { s with marquee := s.marquee.map (fun m => (m.getDisplayText drawn).2) }
    let status := s.music.getStatus
    if status = Status.Stopped ∧ !s.paused then
      (loadAndPlay (s.currentTrack + 1) opened now { s with music := s.music.stop }).2
    else s
  else { s with stop := true }

/-- The start of `main`, from the scanned list and the entered number up to the first
`loadAndPlay`: either the exit code or the session the two loops start from. -/
def mainStartup (laguList : List (List Char)) (selection : Int) (opened : Option Int)
    (now : Int) : Except Int Player :=
  if laguList.isEmpty then Except.error 1
  else if selection < 1 ∨ toSizeT selection > laguList.length then Except.error 1
  else
    let currentTrack := selection - 1
    let s : Player :=
      { laguList := laguList, currentTrack := currentTrack, stop := false, paused := false,
        music := Music.init, marquee := none }
    match loadAndPlay currentTrack opened now s with
    | (true, s) => Except.ok s
    | (false, _) => Except.error 1

/-- What can happen to a running session: the input thread handles a character, the render loop
runs one iteration, or the engine reaches the end of the track it is playing. -/
inductive Event
  | key (cmd : Char) (opened : Option Int) (now : Int)
  | tick (drawn : Int) (opened : Option Int) (now : Int)
  | trackEnd
deriving DecidableEq, Repr

/-- Modelled from the spec: a playing stream that reaches its end reports `Stopped`. -/
def Music.finish (m : Music) : Music :=
  if m.status = Status.Playing then m.stop else m

/-- The effect of one event on the session. -/
def step (s : Player) : Event → Player
  | Event.key cmd opened now => inputStep cmd opened now s
  | Event.tick drawn opened now => renderStep drawn opened now s
  | Event.trackEnd => { s with music := s.music.finish }

/-- The session after a sequence of events. -/
def run (s : Player) (es : List Event) : Player := es.foldl step s

/-- The mathematical clamp of `x` to the interval `[lo, hi]`. -/
def clamp (x lo hi : Int) : Int := max lo (min x hi)

/-! ## The marquee under evenly spaced calls -/

/-- The characters `getDisplayText` builds for `text` in a viewport of `displayWidth` characters
when the cursor is at `position` (the loop over `i` of the source, as a map). -/
def marqueeWindow (text : List Char) (displayWidth position : Nat) : List Char :=
  (List.range displayWidth).map (fun i =>
    if h : (position + i) % (text.length + 3) < text.length
    then text[(position + i) % (text.length + 3)]
    else ' ')

/-- The clock readings of `k` calls spaced `gap` apart, the first one `gap` after `t0`. -/
def spacedTimes (t0 gap : Int) (k : Nat) : List Int :=
  (List.range k).map (fun j => t0 + ((j : Int) + 1) * gap)

/-- The string returned by the `k`-th call (`k ≥ 1`) of `getDisplayText` when the calls are
spaced `gap` apart, the first one `gap` after the clock reading `t0`. -/
def MarqueeText.nthDisplay (m : MarqueeText) (t0 gap : Int) (k : Nat) : List Char :=
  ((m.afterCalls (spacedTimes t0 gap (k - 1))).getDisplayText (t0 + (k : Int) * gap)).1

/-! ## The progress bar -/

/-- Rounding of a rational number to the nearest integer, ties to the even one. -/
def roundHalfEven (q : ℚ) : Int :=
  let f : Int := ⌊q⌋
  let r : ℚ := q - f
  if r < 1 / 2 then f
  else if r > 1 / 2 then f + 1
  else if f % 2 = 0 then f else f + 1

/-- Rounding of a rational number to the nearest `float` (IEEE 754 binary32: a 24-bit
significand, exponents from `-126`, ties to even). -/
def roundToFloat (q : ℚ) : ℚ :=
  let e : Int := max (Int.log 2 |q|) (-126)
  let ulp : ℚ := (2 : ℚ) ^ (e - 23)
  (roundHalfEven (q / ulp) : ℚ) * ulp

/-- The member `sf::Time::asSeconds()`: the `Int64` count of microseconds is converted to
`float` and divided by `1000000.f`. -/
def asSeconds (t : Int) : ℚ := roundToFloat (roundToFloat (t : ℚ) / 1000000)

/-- The conversion `static_cast<int>` of a `float`: truncation toward zero. Outside the range of
`int` the conversion is undefined; the value taken is the one the x86 conversion instruction
returns, `INT_MIN`. -/
def truncToInt (q : ℚ) : Int :=
  let z : Int := if 0 ≤ q then ⌊q⌋ else ⌈q⌉
  if INT_MIN ≤ z ∧ z ≤ INT_MAX then z else INT_MIN

/-- The function `createProgressBar(currentTime, duration, width)`. -/
def createProgressBar (currentTime duration : Int) (width : Int) : List Char :=
  let progress : ℚ :=
    if duration ≠ 0 then roundToFloat (asSeconds currentTime / asSeconds duration) else 0
  let pos : Int := truncToInt (roundToFloat (roundToFloat (width : ℚ) * progress))
  let bar : List Char := []
  let bar := bar ++ ['[']
  let bar := (List.range width.toNat).foldl
    (fun (bar : List Char) (i : Nat) =>
      if (i : Int) < pos then bar ++ ['=']
      else if (i : Int) = pos then bar ++ ['>']
      else bar ++ [' '])
    bar
  let bar := bar ++ [']']
  bar

/-- The value of the `float` product `width * progress` in `createProgressBar`. -/
def progressProduct (currentTime duration : Int) (width : Int) : ℚ :=
  roundToFloat (roundToFloat (width : ℚ) *
    (if duration ≠ 0 then roundToFloat (asSeconds currentTime / asSeconds duration) else 0))

/-- The value of the local `pos` of `createProgressBar`. -/
def progressPos (currentTime duration : Int) (width : Int) : Int :=
  truncToInt (progressProduct currentTime duration width)

/-- The character the loop of `createProgressBar` appends for cell `i` when the local `pos` has
the value `pos`. -/
def barCell (pos : Int) (i : Nat) : Char :=
  if (i : Int) < pos then '=' else if (i : Int) = pos then '>' else ' '

/-- The number of filled cells the progress bar formatter is specified to have:
`round(ratio * width)` with `ratio = elapsed / total`, and `0` if `total = 0`. -/
def specFilledCells (elapsed total : Int) (width : Int) : Int :=
  round ((if total = 0 then (0 : ℚ) else (elapsed : ℚ) / (total : ℚ)) * (width : ℚ))

/-! ## The folder scan and the track selection -/

/-- What the folder scan reads of a `fs::directory_entry`: whether it is a regular file, its
path and the extension of the path (`entry.path().extension().string()`). -/
structure DirEntry where
  isRegularFile : Bool
  path : List Char
  extension : List Char
deriving DecidableEq, Repr

/-- The test on `ext` in the folder scan of `main`. -/
def extensionAccepted (ext : List Char) : Bool :=
  ext == ['.', 'w', 'a', 'v'] || ext == ['.', 'W', 'A', 'V'] ||
  ext == ['.', 'm', 'p', '3'] || ext == ['.', 'M', 'P', '3'] ||
  ext == ['.', 'o', 'g', 'g'] || ext == ['.', 'O', 'G', 'G']

/-- The folder scan of `main`: the list `laguList` after the loop over the directory entries. -/
def scanFolder (entries : List DirEntry) : List (List Char) :=
  entries.foldl
    (fun laguList entry =>
      if entry.isRegularFile then
        if extensionAccepted entry.extension then laguList ++ [entry.path] else laguList
      else laguList)
    []

/-- The extension test as specified: the extension, compared case-insensitively, is one of
`.wav`, `.mp3`, `.ogg`. -/
def specExtensionAccepted (ext : List Char) : Bool :=
  ext.map Char.toLower == ['.', 'w', 'a', 'v'] ||
  ext.map Char.toLower == ['.', 'm', 'p', '3'] ||
  ext.map Char.toLower == ['.', 'o', 'g', 'g']

/-- The part of `main` between the folder scan and the first `loadAndPlay`: the exit code when
the list is empty or the entered number is rejected, otherwise the 0-based `currentTrack`. -/
def selectTrack (laguList : List (List Char)) (selection : Int) : Except Int Int :=
  if laguList.isEmpty then Except.error 1
  else if selection < 1 ∨ toSizeT selection > laguList.length then Except.error 1
  else Except.ok (selection - 1)

/-! ## Basic facts about the embedding -/

theorem toInt_of_le {x : Nat} (h : (x : Int) ≤ INT_MAX) : toInt x = x := by
  unfold toInt
  unfold INT_MAX at h
  omega

theorem toSizeT_of_nonneg {x : Int} (h0 : 0 ≤ x) (h : x ≤ INT_MAX) : (toSizeT x : Int) = x := by
  unfold toSizeT
  unfold INT_MAX at h
  omega

theorem sizeSub_one {n : Nat} (h1 : 1 ≤ n) (h : (n : Int) ≤ INT_MAX) :
    (sizeSub n 1 : Int) = (n : Int) - 1 := by
  unfold sizeSub
  unfold INT_MAX at h
  omega

/-- The index `loadAndPlay` opens: wrap-around of `trackIndex` over `n` tracks. -/
theorem loadAndPlay_success (trackIndex d now : Int) (s : Player) :
    loadAndPlay trackIndex (some d) now s =
      (true, { s with
        currentTrack :=
          if trackIndex < 0 then toInt (sizeSub s.laguList.length 1)
          else if toSizeT trackIndex ≥ s.laguList.length then 0
          else trackIndex
        marquee := some (MarqueeText.new (s.laguList.getD (toSizeT
          (if trackIndex < 0 then toInt (sizeSub s.laguList.length 1)
          else if toSizeT trackIndex ≥ s.laguList.length then 0
          else trackIndex)) []) 26 200 now)
        music := { status := Status.Playing, playingOffset := 0, duration := d } }) := by
  simp [loadAndPlay, Music.openFromFile, Music.play]

theorem loadAndPlay_failure (trackIndex now : Int) (s : Player) :
    loadAndPlay trackIndex none now s = (false, { s with music := s.music.stop }) := by
  simp [loadAndPlay, Music.openFromFile]

theorem command_next {cmd : Char} (h : cmd.toLower = 'n') (opened : Option Int) (now : Int)
    (s : Player) :
    command cmd opened now s =
      (loadAndPlay (s.currentTrack + 1) opened now { s with music := s.music.stop }).2 := by
  simp [command, h]

theorem command_previous {cmd : Char} (h : cmd.toLower = 'b') (opened : Option Int) (now : Int)
    (s : Player) :
    command cmd opened now s =
      (loadAndPlay (s.currentTrack - 1) opened now { s with music := s.music.stop }).2 := by
  simp [command, h]

/-- The wrap-around normalisation of `loadAndPlay` without the machine conversions, for a
track count and an index that fit an `int`. -/
theorem wrap_index_eq {n : Nat} {t : Int} (hn : 1 ≤ n) (hfit : (n : Int) ≤ INT_MAX)
    (ht : t ≤ INT_MAX) :
    (if t < 0 then toInt (sizeSub n 1) else if toSizeT t ≥ n then 0 else t) =
      (if t < 0 then (n : Int) - 1 else if (n : Int) ≤ t then 0 else t) := by
  have hto : toInt (sizeSub n 1) = (n : Int) - 1 := by
    have hsub := sizeSub_one hn hfit
    rw [toInt_of_le (by omega), hsub]
  by_cases h0 : t < 0
  · simp [h0, hto]
  · have hsz := toSizeT_of_nonneg (not_lt.mp h0) ht
    have hiff : toSizeT t ≥ n ↔ (n : Int) ≤ t := by omega
    simp only [h0, if_false, hiff]

/-- The index committed by a successful `loadAndPlay`. -/
theorem loadAndPlay_currentTrack (s : Player) (t d now : Int) (hn : 1 ≤ s.laguList.length)
    (hfit : (s.laguList.length : Int) ≤ INT_MAX) (ht : t ≤ INT_MAX) :
    (loadAndPlay t (some d) now s).2.currentTrack =
      (if t < 0 then (s.laguList.length : Int) - 1
       else if (s.laguList.length : Int) ≤ t then 0 else t) := by
  rw [loadAndPlay_success]
  exact wrap_index_eq hn hfit ht

/-! ## Track navigation -/

/-- C1: with `n ≥ 1` tracks (a count that fits an `int`) and an engine that opens the target
file, the next-track command issued at index `n - 1` leaves the current index at `0`, the
previous-track command issued at index `0` leaves it at `n - 1`, and for `n = 1` both commands
leave it at `0`. -/
theorem advance_wraps_around (s : Player) (cmd : Char) (d now : Int)
    (hn : 1 ≤ s.laguList.length) (hfit : (s.laguList.length : Int) ≤ INT_MAX) :
    (cmd.toLower = 'n' → s.currentTrack = (s.laguList.length : Int) - 1 →
      (command cmd (some d) now s).currentTrack = 0) ∧
    (cmd.toLower = 'b' → s.currentTrack = 0 →
      (command cmd (some d) now s).currentTrack = (s.laguList.length : Int) - 1) ∧
    (s.laguList.length = 1 → s.currentTrack = 0 →
      (command 'n' (some d) now s).currentTrack = 0 ∧
      (command 'b' (some d) now s).currentTrack = 0) := by
  have key : ∀ t : Int, t ≤ INT_MAX →
      (loadAndPlay t (some d) now { s with music := s.music.stop }).2.currentTrack =
        (if t < 0 then (s.laguList.length : Int) - 1
         else if (s.laguList.length : Int) ≤ t then 0 else t) :=
    fun t ht => loadAndPlay_currentTrack { s with music := s.music.stop } t d now hn hfit ht
  refine ⟨?_, ?_, ?_⟩
  · intro hc hi
    rw [command_next hc, key _ (by omega), hi]
    split_ifs <;> omega
  · intro hc hi
    rw [command_previous hc, key _ (by unfold INT_MAX; omega), hi]
    split_ifs <;> omega
  · intro h1 hi
    constructor
    · rw [command_next (by decide), key _ (by unfold INT_MAX; omega), hi]
      split_ifs <;> omega
    · rw [command_previous (by decide), key _ (by unfold INT_MAX; omega), hi]
      split_ifs <;> omega

/-- Witness for C1: three tracks, the next-track command `N` issued at the last index `2`. -/
theorem advance_wraps_around_witness :
    (command 'N' (some 5) 0
      { laguList := [['a'], ['b'], ['c']], currentTrack := 2, stop := false, paused := false,
        music := Music.init, marquee := none }).currentTrack = 0 :=
  (advance_wraps_around
    { laguList := [['a'], ['b'], ['c']], currentTrack := 2, stop := false, paused := false,
      music := Music.init, marquee := none } 'N' 5 0 (by decide) (by decide)).1
    (by decide) (by decide)

/-! ## The current index stays inside the track list -/

theorem loadAndPlay_laguList (t : Int) (opened : Option Int) (now : Int) (s : Player) :
    (loadAndPlay t opened now s).2.laguList = s.laguList := by
  cases opened with
  | none => rw [loadAndPlay_failure]
  | some d => rw [loadAndPlay_success]

/-- A successful `loadAndPlay` commits an index of the track list, whatever `int` it is given. -/
theorem loadAndPlay_index_in_range (s : Player) (t d now : Int) (hn : 1 ≤ s.laguList.length)
    (hfit : (s.laguList.length : Int) ≤ INT_MAX) (ht : t ≤ INT_MAX) :
    0 ≤ (loadAndPlay t (some d) now s).2.currentTrack ∧
      (loadAndPlay t (some d) now s).2.currentTrack < s.laguList.length := by
  rw [loadAndPlay_currentTrack s t d now hn hfit ht]
  split_ifs <;> omega

/-- `loadAndPlay` on a neighbour of a valid index leaves a valid index, whether or not the file
opens. -/
theorem loadAndPlay_keeps_range (s : Player) (t : Int) (opened : Option Int) (now : Int)
    (hfit : (s.laguList.length : Int) ≤ INT_MAX) (ht : t ≤ INT_MAX)
    (h0 : 0 ≤ s.currentTrack) (h1 : s.currentTrack < s.laguList.length) :
    0 ≤ (loadAndPlay t opened now s).2.currentTrack ∧
      (loadAndPlay t opened now s).2.currentTrack < s.laguList.length := by
  cases opened with
  | none => rw [loadAndPlay_failure]; exact ⟨h0, h1⟩
  | some d => exact loadAndPlay_index_in_range s t d now (by omega) hfit ht

theorem command_laguList (cmd : Char) (opened : Option Int) (now : Int) (s : Player) :
    (command cmd opened now s).laguList = s.laguList := by
  unfold command
  simp only
  split_ifs <;> first | rfl | exact loadAndPlay_laguList _ _ _ _

theorem command_keeps_range (cmd : Char) (opened : Option Int) (now : Int) (s : Player)
    (hfit : (s.laguList.length : Int) ≤ INT_MAX)
    (h0 : 0 ≤ s.currentTrack) (h1 : s.currentTrack < s.laguList.length) :
    0 ≤ (command cmd opened now s).currentTrack ∧
      (command cmd opened now s).currentTrack < s.laguList.length := by
  unfold command
  simp only
  split_ifs <;> first
    | exact ⟨h0, h1⟩
    | exact loadAndPlay_keeps_range { s with music := s.music.stop } _ opened now hfit
        (by show _ ≤ INT_MAX; omega) h0 h1

theorem renderStep_laguList (drawn : Int) (opened : Option Int) (now : Int) (s : Player) :
    (renderStep drawn opened now s).laguList = s.laguList := by
  unfold renderStep
  simp only
  split_ifs <;> first | rfl | exact loadAndPlay_laguList _ _ _ _

theorem renderStep_keeps_range (drawn : Int) (opened : Option Int) (now : Int) (s : Player)
    (hfit : (s.laguList.length : Int) ≤ INT_MAX)
    (h0 : 0 ≤ s.currentTrack) (h1 : s.currentTrack < s.laguList.length) :
    0 ≤ (renderStep drawn opened now s).currentTrack ∧
      (renderStep drawn opened now s).currentTrack < s.laguList.length := by
  unfold renderStep
  simp only
  split_ifs
  · exact loadAndPlay_keeps_range
      { s with marquee := s.marquee.map (fun m => (m.getDisplayText drawn).2),
               music := s.music.stop } _ opened now hfit
      (by show _ ≤ INT_MAX; omega) h0 h1
  · exact ⟨h0, h1⟩
  · exact ⟨h0, h1⟩

theorem step_laguList (s : Player) (e : Event) : (step s e).laguList = s.laguList := by
  cases e with
  | key cmd opened now =>
    show (inputStep cmd opened now s).laguList = _
    unfold inputStep
    split_ifs
    · exact command_laguList _ _ _ _
    · rfl
  | tick drawn opened now => exact renderStep_laguList _ _ _ _
  | trackEnd => rfl

theorem step_keeps_range (s : Player) (e : Event)
    (hfit : (s.laguList.length : Int) ≤ INT_MAX)
    (h0 : 0 ≤ s.currentTrack) (h1 : s.currentTrack < s.laguList.length) :
    0 ≤ (step s e).currentTrack ∧ (step s e).currentTrack < s.laguList.length := by
  cases e with
  | key cmd opened now =>
    show 0 ≤ (inputStep cmd opened now s).currentTrack ∧
      (inputStep cmd opened now s).currentTrack < _
    unfold inputStep
    split_ifs
    · exact command_keeps_range _ _ _ _ hfit h0 h1
    · exact ⟨h0, h1⟩
  | tick drawn opened now => exact renderStep_keeps_range _ _ _ _ hfit h0 h1
  | trackEnd => exact ⟨h0, h1⟩

theorem run_keeps_range (es : List Event) (s : Player)
    (hfit : (s.laguList.length : Int) ≤ INT_MAX)
    (h0 : 0 ≤ s.currentTrack) (h1 : s.currentTrack < s.laguList.length) :
    (run s es).laguList = s.laguList ∧
      0 ≤ (run s es).currentTrack ∧ (run s es).currentTrack < s.laguList.length := by
  induction es generalizing s with
  | nil => exact ⟨rfl, h0, h1⟩
  | cons e es ih =>
    have hl := step_laguList s e
    have hr := step_keeps_range s e hfit h0 h1
    have := ih (step s e) (by rw [hl]; exact hfit) hr.1 (by rw [hl]; exact hr.2)
    rw [hl] at this
    exact this

/-- The session `main` enters its loops with when the selection is accepted and the first file
opens. -/
theorem mainStartup_ok (laguList : List (List Char)) (k d now : Int)
    (hfit : (laguList.length : Int) ≤ INT_MAX) (hk1 : 1 ≤ k) (hk2 : k ≤ laguList.length) :
    mainStartup laguList k (some d) now = Except.ok
      { laguList := laguList, currentTrack := k - 1, stop := false, paused := false,
        music := { status := Status.Playing, playingOffset := 0, duration := d },
        marquee := some (MarqueeText.new (laguList.getD (toSizeT (k - 1)) []) 26 200 now) } := by
  have hne : laguList.isEmpty = false := by
    cases laguList with
    | nil => simp at hk2; omega
    | cons a l => rfl
  have hsz := toSizeT_of_nonneg (x := k) (by omega) (by omega)
  have hsel : ¬ (k < 1 ∨ toSizeT k > laguList.length) := by omega
  have hsz1 := toSizeT_of_nonneg (x := k - 1) (by omega) (by omega)
  have hwrap : ¬ (toSizeT (k - 1) ≥ laguList.length) := by omega
  have hneg : ¬ (k - 1 < 0) := by omega
  unfold mainStartup
  simp only [hne, hsel, if_false, Bool.false_eq_true, loadAndPlay_success, hneg, hwrap]

/-- C2: from an accepted selection `k` with `1 ≤ k ≤ n` (the track count fitting an `int`) the
session starts at index `k - 1`, and after every finite sequence of events (commands, render
ticks, ends of track), whatever the outcome of each engine open, the current index `i` satisfies
`0 ≤ i < n`; and the wrap-around normalisation of `loadAndPlay`, given any `int`, leaves an index
in that range. -/
theorem currentTrack_always_valid (laguList : List (List Char)) (k d now : Int)
    (es : List Event)
    (hfit : (laguList.length : Int) ≤ INT_MAX) (hk1 : 1 ≤ k) (hk2 : k ≤ laguList.length) :
    ∃ s, mainStartup laguList k (some d) now = Except.ok s ∧ s.currentTrack = k - 1 ∧
      (run s es).laguList = laguList ∧
      0 ≤ (run s es).currentTrack ∧ (run s es).currentTrack < laguList.length ∧
      ∀ (t : Int) (opened : Option Int) (t0 : Int), INT_MIN ≤ t → t ≤ INT_MAX →
        0 ≤ (loadAndPlay t opened t0 (run s es)).2.currentTrack ∧
        (loadAndPlay t opened t0 (run s es)).2.currentTrack < laguList.length := by
  refine ⟨_, mainStartup_ok laguList k d now hfit hk1 hk2, rfl, ?_⟩
  obtain ⟨hl, h0, h1⟩ := run_keeps_range es
    { laguList := laguList, currentTrack := k - 1, stop := false, paused := false,
      music := { status := Status.Playing, playingOffset := 0, duration := d },
      marquee := some (MarqueeText.new (laguList.getD (toSizeT (k - 1)) []) 26 200 now) }
    hfit (by show 0 ≤ k - 1; omega) (by show k - 1 < (laguList.length : Int); omega)
  refine ⟨hl, h0, h1, ?_⟩
  intro t opened t0 _ ht
  have := loadAndPlay_keeps_range _ t opened t0 (by rw [hl]; exact hfit) ht h0
    (by rw [hl]; exact h1)
  rw [hl] at this
  exact this

/-- Witness for C2: three tracks, selection `2`, then previous twice (the second open failing),
a stop, an end of track, a render tick and three next commands. -/
theorem currentTrack_always_valid_witness :
    ∃ s, mainStartup [['a'], ['b'], ['c']] 2 (some 5) 0 = Except.ok s ∧ s.currentTrack = 2 - 1 ∧
      (run s [Event.key 'b' (some 7) 1, Event.key 'B' none 2, Event.key 'b' (some 7) 3,
        Event.key 's' none 4, Event.trackEnd, Event.tick 5 (some 9) 6,
        Event.key 'n' (some 7) 7, Event.key 'n' (some 7) 8]).laguList = [['a'], ['b'], ['c']] ∧
      0 ≤ (run s [Event.key 'b' (some 7) 1, Event.key 'B' none 2, Event.key 'b' (some 7) 3,
        Event.key 's' none 4, Event.trackEnd, Event.tick 5 (some 9) 6,
        Event.key 'n' (some 7) 7, Event.key 'n' (some 7) 8]).currentTrack ∧
      (run s [Event.key 'b' (some 7) 1, Event.key 'B' none 2, Event.key 'b' (some 7) 3,
        Event.key 's' none 4, Event.trackEnd, Event.tick 5 (some 9) 6,
        Event.key 'n' (some 7) 7, Event.key 'n' (some 7) 8]).currentTrack
          < ([['a'], ['b'], ['c']] : List (List Char)).length ∧
      ∀ (t : Int) (opened : Option Int) (t0 : Int), INT_MIN ≤ t → t ≤ INT_MAX →
        0 ≤ (loadAndPlay t opened t0 (run s [Event.key 'b' (some 7) 1, Event.key 'B' none 2,
          Event.key 'b' (some 7) 3, Event.key 's' none 4, Event.trackEnd,
          Event.tick 5 (some 9) 6, Event.key 'n' (some 7) 7,
          Event.key 'n' (some 7) 8])).2.currentTrack ∧
        (loadAndPlay t opened t0 (run s [Event.key 'b' (some 7) 1, Event.key 'B' none 2,
          Event.key 'b' (some 7) 3, Event.key 's' none 4, Event.trackEnd,
          Event.tick 5 (some 9) 6, Event.key 'n' (some 7) 7,
          Event.key 'n' (some 7) 8])).2.currentTrack
            < ([['a'], ['b'], ['c']] : List (List Char)).length :=
  currentTrack_always_valid [['a'], ['b'], ['c']] 2 5 0 _ (by decide) (by decide) (by decide)

/-! ## Seeking -/

theorem command_forward {cmd : Char} (h : cmd.toLower = 'f') (opened : Option Int) (now : Int)
    (s : Player) :
    command cmd opened now s =
      { s with music := (s.music.setPlayingOffset
          (if s.music.playingOffset + jumpDuration < s.music.duration
           then s.music.playingOffset + jumpDuration else s.music.duration)) } := by
  simp only [command, h, Music.getPlayingOffset, Music.getDuration, Char.reduceEq, if_false,
    if_true]
  split_ifs <;> rfl

theorem command_rewind {cmd : Char} (h : cmd.toLower = 'r') (opened : Option Int) (now : Int)
    (s : Player) :
    command cmd opened now s =
      { s with music := (s.music.setPlayingOffset
          (if s.music.playingOffset - jumpDuration > 0
           then s.music.playingOffset - jumpDuration else 0)) } := by
  simp only [command, h, Music.getPlayingOffset, Music.getDuration, Char.reduceEq, if_false,
    if_true]
  split_ifs <;> rfl

/-- C3: in a state with `0 ≤ offset ≤ duration` the forward command calls `setPlayingOffset`
with `clamp (offset + 10 s) 0 duration` and the rewind command with
`clamp (offset - 10 s) 0 duration`; after either, the offset is neither negative nor beyond the
duration. -/
theorem seek_requests_clamped_offset (s : Player) (cmd : Char) (opened : Option Int) (now : Int)
    (h0 : 0 ≤ s.music.playingOffset) (h1 : s.music.playingOffset ≤ s.music.duration) :
    (cmd.toLower = 'f' →
      command cmd opened now s =
        { s with music := (s.music.setPlayingOffset
            (clamp (s.music.playingOffset + jumpDuration) 0 s.music.duration)) }) ∧
    (cmd.toLower = 'r' →
      command cmd opened now s =
        { s with music := (s.music.setPlayingOffset
            (clamp (s.music.playingOffset - jumpDuration) 0 s.music.duration)) }) ∧
    (cmd.toLower = 'f' ∨ cmd.toLower = 'r' →
      0 ≤ (command cmd opened now s).music.playingOffset ∧
      (command cmd opened now s).music.playingOffset ≤ s.music.duration) := by
  have hf : (if s.music.playingOffset + jumpDuration < s.music.duration
      then s.music.playingOffset + jumpDuration else s.music.duration) =
      clamp (s.music.playingOffset + jumpDuration) 0 s.music.duration := by
    unfold clamp jumpDuration
    split_ifs <;> omega
  have hr : (if s.music.playingOffset - jumpDuration > 0
      then s.music.playingOffset - jumpDuration else 0) =
      clamp (s.music.playingOffset - jumpDuration) 0 s.music.duration := by
    unfold clamp jumpDuration
    split_ifs <;> omega
  refine ⟨fun h => ?_, fun h => ?_, fun h => ?_⟩
  · rw [command_forward h, hf]
  · rw [command_rewind h, hr]
  · rcases h with h | h
    · rw [command_forward h]
      show 0 ≤ ite _ _ _ ∧ ite _ _ _ ≤ _
      unfold jumpDuration
      split_ifs <;> omega
    · rw [command_rewind h]
      show 0 ≤ ite _ _ _ ∧ ite _ _ _ ≤ _
      unfold jumpDuration
      split_ifs <;> omega

/-- Witness for C3: a 25 s track at offset 20 s; `F` requests the end of the track (25 s). -/
theorem seek_requests_clamped_offset_witness :
    command 'F' none 0
        { laguList := [['a']], currentTrack := 0, stop := false, paused := false,
          music := { status := Status.Playing, playingOffset := 20000000, duration := 25000000 },
          marquee := none } =
      { laguList := [['a']], currentTrack := 0, stop := false, paused := false,
        music := { status := Status.Playing, playingOffset := 25000000, duration := 25000000 },
        marquee := none } :=
  (seek_requests_clamped_offset
    { laguList := [['a']], currentTrack := 0, stop := false, paused := false,
      music := { status := Status.Playing, playingOffset := 20000000, duration := 25000000 },
      marquee := none } 'F' none 0 (by decide) (by decide)).1 (by decide)

/-! ## A failed advance -/

/-- C4, counterexample: two tracks, selection `1`, the first open succeeds and the engine is
`Playing`; the next-track command with a failing open keeps the index `0` but leaves the engine
`Stopped`, not in its prior status. -/
theorem failed_advance_changes_status :
    mainStartup [['a'], ['b']] 1 (some 5) 0 = Except.ok
      { laguList := [['a'], ['b']], currentTrack := 0, stop := false, paused := false,
        music := { status := Status.Playing, playingOffset := 0, duration := 5 },
        marquee := some (MarqueeText.new ['a'] 26 200 0) } ∧
    (step
      { laguList := [['a'], ['b']], currentTrack := 0, stop := false, paused := false,
        music := { status := Status.Playing, playingOffset := 0, duration := 5 },
        marquee := some (MarqueeText.new ['a'] 26 200 0) }
      (Event.key 'n' none 1)).currentTrack = 0 ∧
    (step
      { laguList := [['a'], ['b']], currentTrack := 0, stop := false, paused := false,
        music := { status := Status.Playing, playingOffset := 0, duration := 5 },
        marquee := some (MarqueeText.new ['a'] 26 200 0) }
      (Event.key 'n' none 1)).music.status ≠ Status.Playing :=
  ⟨mainStartup_ok [['a'], ['b']] 1 5 0 (by decide) (by decide) (by decide), by decide,
    by decide⟩

/-- C4, amended: when the next-track or previous-track command is issued and the engine cannot
open the target file, the track list, the current index, the paused flag, the stop flag and the
marquee are unchanged and the engine is left stopped (`music.stop()` has run); so the status
after the command equals the status before it exactly when the engine was already `Stopped`. -/
theorem failed_advance_keeps_index_and_stops (s : Player) (cmd : Char) (now : Int)
    (hcmd : cmd.toLower = 'n' ∨ cmd.toLower = 'b') :
    command cmd none now s = { s with music := s.music.stop } ∧
    (command cmd none now s).currentTrack = s.currentTrack ∧
    (command cmd none now s).paused = s.paused ∧
    (command cmd none now s).stop = s.stop ∧
    (command cmd none now s).music.status = Status.Stopped ∧
    ((command cmd none now s).music.status = s.music.status ↔
      s.music.status = Status.Stopped) := by
  have h : command cmd none now s = { s with music := s.music.stop } := by
    rcases hcmd with hc | hc
    · rw [command_next hc, loadAndPlay_failure]; rfl
    · rw [command_previous hc, loadAndPlay_failure]; rfl
  rw [h]
  refine ⟨rfl, rfl, rfl, rfl, rfl, ?_⟩
  show Status.Stopped = s.music.status ↔ s.music.status = Status.Stopped
  exact eq_comm

/-- Witness for C4 (amended): `B` with a failing open in a playing two-track session. -/
theorem failed_advance_keeps_index_and_stops_witness :
    (command 'B' none 1
      { laguList := [['a'], ['b']], currentTrack := 0, stop := false, paused := false,
        music := { status := Status.Playing, playingOffset := 3, duration := 5 },
        marquee := none }).music.status = Status.Stopped :=
  (failed_advance_keeps_index_and_stops
    { laguList := [['a'], ['b']], currentTrack := 0, stop := false, paused := false,
      music := { status := Status.Playing, playingOffset := 3, duration := 5 },
      marquee := none } 'B' 1 (Or.inr (by decide))).2.2.2.2.1

/-! ## The paused flag -/

/-- C5: evaluation at the failing input. Two tracks, selection `1`, then `p` (pause) and `n`
(next, the open succeeds): the engine is `Playing` the second track while the paused flag is
still `true`. -/
theorem next_while_paused_leaves_flag_set :
    ∃ s, mainStartup [['a'], ['b']] 1 (some 5) 0 = Except.ok s ∧
      (run s [Event.key 'p' none 1, Event.key 'n' (some 7) 2]).currentTrack = 1 ∧
      (run s [Event.key 'p' none 1, Event.key 'n' (some 7) 2]).music.status = Status.Playing ∧
      (run s [Event.key 'p' none 1, Event.key 'n' (some 7) 2]).paused = true :=
  ⟨_, mainStartup_ok [['a'], ['b']] 1 5 0 (by decide) (by decide) (by decide),
    by decide, by decide, by decide⟩

/-! ## Quit -/

theorem inputStep_of_stop (cmd : Char) (opened : Option Int) (now : Int) (s : Player)
    (hs : s.stop = true) : inputStep cmd opened now s = s := by
  simp [inputStep, hs]

theorem renderStep_of_stop (drawn : Int) (opened : Option Int) (now : Int) (s : Player)
    (hs : s.stop = true) : renderStep drawn opened now s = s := by
  cases s
  simp only at hs
  simp [renderStep, hs]

theorem step_of_stop (s : Player) (e : Event) (hs : s.stop = true) :
    (step s e).stop = true ∧ (step s e).currentTrack = s.currentTrack ∧
      (step s e).paused = s.paused ∧ (e ≠ Event.trackEnd → step s e = s) := by
  cases e with
  | key cmd opened now =>
    show (inputStep cmd opened now s).stop = true ∧ (inputStep cmd opened now s).currentTrack = _ ∧
      (inputStep cmd opened now s).paused = _ ∧ (_ → inputStep cmd opened now s = s)
    rw [inputStep_of_stop _ _ _ _ hs]
    exact ⟨hs, rfl, rfl, fun _ => rfl⟩
  | tick drawn opened now =>
    show (renderStep drawn opened now s).stop = true ∧
      (renderStep drawn opened now s).currentTrack = _ ∧
      (renderStep drawn opened now s).paused = _ ∧ (_ → renderStep drawn opened now s = s)
    rw [renderStep_of_stop _ _ _ _ hs]
    exact ⟨hs, rfl, rfl, fun _ => rfl⟩
  | trackEnd => exact ⟨hs, rfl, rfl, fun h => absurd rfl h⟩

/-- C6: once `stop` is true, an iteration of the input thread loop and an iteration of the
render loop each leave the whole session (current index, paused flag, engine, stop flag)
unchanged, and after any further sequence of events `stop` is still true and the current index
and the paused flag are unchanged; with only loop iterations the session is unchanged. -/
theorem quit_is_absorbing (s : Player) (hs : s.stop = true) :
    (∀ (cmd : Char) (opened : Option Int) (now : Int), inputStep cmd opened now s = s) ∧
    (∀ (drawn : Int) (opened : Option Int) (now : Int), renderStep drawn opened now s = s) ∧
    (∀ es : List Event, (run s es).stop = true ∧ (run s es).currentTrack = s.currentTrack ∧
      (run s es).paused = s.paused ∧ ((∀ e ∈ es, e ≠ Event.trackEnd) → run s es = s)) := by
  refine ⟨fun cmd opened now => inputStep_of_stop cmd opened now s hs,
    fun drawn opened now => renderStep_of_stop drawn opened now s hs, ?_⟩
  intro es
  induction es generalizing s with
  | nil => exact ⟨hs, rfl, rfl, fun _ => rfl⟩
  | cons e es ih =>
    obtain ⟨h1, h2, h3, h4⟩ := step_of_stop s e hs
    obtain ⟨i1, i2, i3, i4⟩ := ih (step s e) h1
    refine ⟨i1, i2.trans h2, i3.trans h3, fun hall => ?_⟩
    have he : step s e = s := h4 (hall e (List.mem_cons_self e es))
    have := i4 (fun x hx => hall x (List.mem_cons_of_mem e hx))
    show run (step s e) es = s
    rw [this, he]

/-- Witness for C6: after `q`, the keys `n`, `P` and a render tick change nothing. -/
theorem quit_is_absorbing_witness :
    run
      { laguList := [['a'], ['b']], currentTrack := 0, stop := true, paused := false,
        music := { status := Status.Stopped, playingOffset := 0, duration := 5 },
        marquee := none }
      [Event.key 'n' (some 7) 1, Event.key 'P' none 2, Event.tick 3 (some 7) 4] =
      { laguList := [['a'], ['b']], currentTrack := 0, stop := true, paused := false,
        music := { status := Status.Stopped, playingOffset := 0, duration := 5 },
        marquee := none } :=
  ((quit_is_absorbing
    { laguList := [['a'], ['b']], currentTrack := 0, stop := true, paused := false,
      music := { status := Status.Stopped, playingOffset := 0, duration := 5 },
      marquee := none } rfl).2.2 _).2.2.2 (by decide)

/-! ## Forward cycling -/

theorem command_next_success (s : Player) (cmd : Char) (d now : Int) (hc : cmd.toLower = 'n')
    (hfit : (s.laguList.length : Int) ≤ INT_MAX)
    (h0 : 0 ≤ s.currentTrack) (h1 : s.currentTrack < s.laguList.length) :
    (command cmd (some d) now s).currentTrack = (s.currentTrack + 1) % s.laguList.length ∧
      (command cmd (some d) now s).stop = s.stop ∧
      (command cmd (some d) now s).laguList = s.laguList := by
  refine ⟨?_, ?_, command_laguList _ _ _ _⟩
  · rw [command_next hc]
    rw [loadAndPlay_currentTrack { s with music := s.music.stop } _ d now
      (by show 1 ≤ s.laguList.length; omega) hfit (by show _ ≤ INT_MAX; omega)]
    show (if s.currentTrack + 1 < 0 then (s.laguList.length : Int) - 1
      else if (s.laguList.length : Int) ≤ s.currentTrack + 1 then 0 else s.currentTrack + 1) = _
    split_ifs with ha hb
    · omega
    · have : s.currentTrack + 1 = s.laguList.length := by omega
      rw [this, Int.emod_self]
    · rw [Int.emod_eq_of_lt (by omega) (by omega)]
  · rw [command_next hc, loadAndPlay_success]

/-- C7: with `n ≥ 1` tracks (a count that fits an `int`), a running session at index `i` in
`[0, n)` and every open succeeding, `k` consecutive next-track commands leave the current index at
`(i + k) mod n`; in particular `n` of them return to `i`. -/
theorem next_commands_cycle (s : Player) (es : List Event)
    (hfit : (s.laguList.length : Int) ≤ INT_MAX)
    (h0 : 0 ≤ s.currentTrack) (h1 : s.currentTrack < s.laguList.length)
    (hrun : s.stop = false)
    (hnext : ∀ e ∈ es, ∃ (cmd : Char) (d now : Int),
      cmd.toLower = 'n' ∧ e = Event.key cmd (some d) now) :
    (run s es).currentTrack = (s.currentTrack + es.length) % s.laguList.length ∧
      (es.length = s.laguList.length → (run s es).currentTrack = s.currentTrack) := by
  have main : ∀ (es : List Event) (s : Player), (s.laguList.length : Int) ≤ INT_MAX →
      0 ≤ s.currentTrack → s.currentTrack < s.laguList.length → s.stop = false →
      (∀ e ∈ es, ∃ (cmd : Char) (d now : Int),
        cmd.toLower = 'n' ∧ e = Event.key cmd (some d) now) →
      (run s es).currentTrack = (s.currentTrack + es.length) % s.laguList.length := by
    intro es
    induction es with
    | nil =>
      intro s _ h0 h1 _ _
      show s.currentTrack = (s.currentTrack + 0) % _
      rw [add_zero, Int.emod_eq_of_lt h0 h1]
    | cons e es ih =>
      intro s hfit h0 h1 hrun hnext
      obtain ⟨cmd, d, now, hc, rfl⟩ := hnext e (List.mem_cons_self e es)
      have hstep : step s (Event.key cmd (some d) now) = command cmd (some d) now s := by
        show inputStep cmd (some d) now s = _
        simp [inputStep, hrun]
      obtain ⟨c1, c2, c3⟩ := command_next_success s cmd d now hc hfit h0 h1
      have hpos : (0 : Int) < s.laguList.length := by omega
      have ih' := ih (command cmd (some d) now s) (by rw [c3]; exact hfit)
        (by rw [c1]; exact Int.emod_nonneg _ (by omega))
        (by rw [c1, c3]; exact Int.emod_lt_of_pos _ hpos)
        (by rw [c2]; exact hrun)
        (fun x hx => hnext x (List.mem_cons_of_mem _ hx))
      show (run (step s (Event.key cmd (some d) now)) es).currentTrack = _
      rw [hstep, ih', c1, c3, List.length_cons]
      push_cast
      rw [Int.emod_add_emod]
      congr 1
      ring
  have hmain := main es s hfit h0 h1 hrun hnext
  refine ⟨hmain, fun hlen => ?_⟩
  rw [hmain, hlen, Int.add_emod_self, Int.emod_eq_of_lt h0 h1]

/-- Witness for C7: three tracks, index `1`; the commands `N, N` reach index `0` and
`N, N, N` return to index `1`. -/
theorem next_commands_cycle_witness :
    (run
      { laguList := [['a'], ['b'], ['c']], currentTrack := 1, stop := false, paused := false,
        music := { status := Status.Playing, playingOffset := 0, duration := 5 },
        marquee := none }
      [Event.key 'N' (some 5) 1, Event.key 'N' (some 6) 2]).currentTrack = 0 ∧
    (run
      { laguList := [['a'], ['b'], ['c']], currentTrack := 1, stop := false, paused := false,
        music := { status := Status.Playing, playingOffset := 0, duration := 5 },
        marquee := none }
      [Event.key 'N' (some 5) 1, Event.key 'N' (some 6) 2, Event.key 'N' (some 7) 3]).currentTrack
      = 1 :=
  ⟨(next_commands_cycle
    { laguList := [['a'], ['b'], ['c']], currentTrack := 1, stop := false, paused := false,
      music := { status := Status.Playing, playingOffset := 0, duration := 5 },
      marquee := none }
    [Event.key 'N' (some 5) 1, Event.key 'N' (some 6) 2]
    (by decide) (by decide) (by decide) rfl
    (by
      intro e he
      simp only [List.mem_cons, List.mem_singleton, List.not_mem_nil, or_false] at he
      rcases he with rfl | rfl
      · exact ⟨'N', 5, 1, by decide, rfl⟩
      · exact ⟨'N', 6, 2, by decide, rfl⟩)).1,
  (next_commands_cycle
    { laguList := [['a'], ['b'], ['c']], currentTrack := 1, stop := false, paused := false,
      music := { status := Status.Playing, playingOffset := 0, duration := 5 },
      marquee := none }
    [Event.key 'N' (some 5) 1, Event.key 'N' (some 6) 2, Event.key 'N' (some 7) 3]
    (by decide) (by decide) (by decide) rfl
    (by
      intro e he
      simp only [List.mem_cons, List.mem_singleton, List.not_mem_nil, or_false] at he
      rcases he with rfl | rfl | rfl
      · exact ⟨'N', 5, 1, by decide, rfl⟩
      · exact ⟨'N', 6, 2, by decide, rfl⟩
      · exact ⟨'N', 7, 3, by decide, rfl⟩)).2 rfl⟩

/-! ## Play / pause -/

theorem command_playPause {cmd : Char} (h : cmd.toLower = 'p') (opened : Option Int) (now : Int)
    (s : Player) :
    command cmd opened now s =
      if !s.paused then { s with music := s.music.pause, paused := true }
      else { s with music := s.music.play, paused := false } := by
  simp [command, h]

/-- C8: two consecutive play/pause commands leave the paused flag at its original value, both
for the command handler alone and for two iterations of the input thread loop. -/
theorem pause_toggle_twice (s : Player) (c1 c2 : Char) (o1 o2 : Option Int) (t1 t2 : Int)
    (h1 : c1.toLower = 'p') (h2 : c2.toLower = 'p') :
    (command c2 o2 t2 (command c1 o1 t1 s)).paused = s.paused ∧
      (inputStep c2 o2 t2 (inputStep c1 o1 t1 s)).paused = s.paused := by
  have hc : (command c2 o2 t2 (command c1 o1 t1 s)).paused = s.paused := by
    rw [command_playPause h2, command_playPause h1]
    cases hp : s.paused <;> simp [hp]
  have hstop : (command c1 o1 t1 s).stop = s.stop := by
    rw [command_playPause h1]
    cases hp : s.paused <;> simp [hp]
  refine ⟨hc, ?_⟩
  cases hs : s.stop
  · have e1 : inputStep c1 o1 t1 s = command c1 o1 t1 s := by simp [inputStep, hs]
    have e2 : inputStep c2 o2 t2 (command c1 o1 t1 s) =
        command c2 o2 t2 (command c1 o1 t1 s) := by
      simp [inputStep, hstop, hs]
    rw [e1, e2, hc]
  · rw [inputStep_of_stop c1 o1 t1 s hs, inputStep_of_stop c2 o2 t2 s hs]

/-- Witness for C8: `p` then `P` on a playing session. -/
theorem pause_toggle_twice_witness :
    (command 'P' none 2 (command 'p' none 1
      { laguList := [['a']], currentTrack := 0, stop := false, paused := false,
        music := { status := Status.Playing, playingOffset := 0, duration := 5 },
        marquee := none })).paused = false :=
  (pause_toggle_twice
    { laguList := [['a']], currentTrack := 0, stop := false, paused := false,
      music := { status := Status.Playing, playingOffset := 0, duration := 5 },
      marquee := none } 'p' 'P' none none 1 2 (by decide) (by decide)).1

/-! ## The marquee -/

theorem foldl_append_singleton {α β : Type} (f : β → α) (l : List β) (init : List α) :
    l.foldl (fun display i => display ++ [f i]) init = init ++ l.map f := by
  induction l generalizing init with
  | nil => simp
  | cons b l ih => simp [ih]

/-- The character `getDisplayText` puts at offset `i` when the cursor is at `position`. -/
theorem getDisplayText_eq (m : MarqueeText) (now : Int) :
    m.getDisplayText now =
      if !m.needsMarquee then (m.text, m)
      else
        ((List.range m.displayWidth).map (fun i =>
            if h : ((if now - m.lastUpdate > m.delay * 1000000
                then (m.position + 1) % (m.text.length + 3) else m.position) + i)
                  % (m.text.length + 3) < m.text.length
            then m.text[((if now - m.lastUpdate > m.delay * 1000000
                then (m.position + 1) % (m.text.length + 3) else m.position) + i)
                  % (m.text.length + 3)]
            else ' '),
          if now - m.lastUpdate > m.delay * 1000000 then
            { m with position := (m.position + 1) % (m.text.length + 3), lastUpdate := now }
          else m) := by
  unfold MarqueeText.getDisplayText
  split_ifs with h1 h2
  · rfl
  · simp only [Prod.mk.injEq, and_true]
    have := foldl_append_singleton (fun i =>
      if h : ((m.position + 1) % (m.text.length + 3) + i) % (m.text.length + 3) < m.text.length
      then m.text[((m.position + 1) % (m.text.length + 3) + i) % (m.text.length + 3)]
      else ' ') (List.range m.displayWidth) []
    simp only [List.nil_append] at this
    rw [← this]
    congr 1
    funext display i
    split_ifs <;> rfl
  · simp only [Prod.mk.injEq, and_true]
    have := foldl_append_singleton (fun i =>
      if h : (m.position + i) % (m.text.length + 3) < m.text.length
      then m.text[(m.position + i) % (m.text.length + 3)]
      else ' ') (List.range m.displayWidth) []
    simp only [List.nil_append] at this
    rw [← this]
    congr 1
    funext display i
    split_ifs <;> rfl

theorem getDisplayText_fields (m : MarqueeText) (now : Int) :
    (m.getDisplayText now).2.text = m.text ∧
      (m.getDisplayText now).2.displayWidth = m.displayWidth ∧
      (m.getDisplayText now).2.delay = m.delay ∧
      (m.getDisplayText now).2.needsMarquee = m.needsMarquee := by
  rw [getDisplayText_eq]
  split_ifs <;> exact ⟨rfl, rfl, rfl, rfl⟩

theorem afterCalls_fields (times : List Int) (m : MarqueeText) :
    (m.afterCalls times).text = m.text ∧
      (m.afterCalls times).displayWidth = m.displayWidth ∧
      (m.afterCalls times).delay = m.delay ∧
      (m.afterCalls times).needsMarquee = m.needsMarquee := by
  induction times generalizing m with
  | nil => exact ⟨rfl, rfl, rfl, rfl⟩
  | cons t ts ih =>
    obtain ⟨a, b, c, d⟩ := getDisplayText_fields m t
    obtain ⟨a1, b1, c1, d1⟩ := ih (m.getDisplayText t).2
    exact ⟨a1.trans a, b1.trans b, c1.trans c, d1.trans d⟩

theorem getDisplayText_short (m : MarqueeText) (now : Int) (h : m.needsMarquee = false) :
    m.getDisplayText now = (m.text, m) := by
  rw [getDisplayText_eq]
  simp [h]

theorem getDisplayText_long (m : MarqueeText) (now : Int) (h : m.needsMarquee = true) :
    (m.getDisplayText now).1.length = m.displayWidth ∧
      ∀ i, i < m.displayWidth →
        (m.getDisplayText now).1[i]? =
          if ((m.getDisplayText now).2.position + i) % (m.text.length + 3) < m.text.length
          then m.text[((m.getDisplayText now).2.position + i) % (m.text.length + 3)]?
          else some ' ' := by
  rw [getDisplayText_eq]
  simp only [h, Bool.not_true, Bool.false_eq_true, if_false]
  constructor
  · simp
  · intro i hi
    rw [List.getElem?_map, List.getElem?_range hi]
    simp only [Option.map_some']
    by_cases hadv : now - m.lastUpdate > m.delay * 1000000
    · simp only [hadv, if_true]
      split_ifs with hk
      · rw [List.getElem?_eq_getElem hk]
      · rfl
    · simp only [hadv, if_false]
      split_ifs with hk
      · rw [List.getElem?_eq_getElem hk]
      · rfl

/-- C9: for an object built by the constructor and called any number of times before: if
`len(text) ≤ viewportWidth` the call returns `text` unchanged; otherwise it returns exactly
`viewportWidth` characters, the one at offset `i` being `text[(cursor + i) mod (len(text) + 3)]`
when that index is below `len(text)` and a space otherwise, `cursor` being the position after
the time-gated advance of that call. -/
theorem getDisplayText_window (text : List Char) (width : Nat) (delay t0 : Int)
    (times : List Int) (now : Int) :
    (text.length ≤ width →
      (((MarqueeText.new text width delay t0).afterCalls times).getDisplayText now).1 = text) ∧
    (width < text.length →
      (((MarqueeText.new text width delay t0).afterCalls times).getDisplayText now).1.length
        = width ∧
      ∀ i, i < width →
        (((MarqueeText.new text width delay t0).afterCalls times).getDisplayText now).1[i]? =
          if ((((MarqueeText.new text width delay t0).afterCalls times).getDisplayText
                now).2.position + i) % (text.length + 3) < text.length
          then text[((((MarqueeText.new text width delay t0).afterCalls times).getDisplayText
                now).2.position + i) % (text.length + 3)]?
          else some ' ') ∧
    (width < text.length →
      (((MarqueeText.new text width delay t0).afterCalls times).getDisplayText now).2.position =
        if now - ((MarqueeText.new text width delay t0).afterCalls times).lastUpdate
            > delay * 1000000
        then (((MarqueeText.new text width delay t0).afterCalls times).position + 1)
            % (text.length + 3)
        else ((MarqueeText.new text width delay t0).afterCalls times).position) := by
  obtain ⟨htext, hwidth, hdelay, hneeds⟩ :=
    afterCalls_fields times (MarqueeText.new text width delay t0)
  have htext' : ((MarqueeText.new text width delay t0).afterCalls times).text = text := htext
  have hwidth' : ((MarqueeText.new text width delay t0).afterCalls times).displayWidth = width :=
    hwidth
  have hneeds' : ((MarqueeText.new text width delay t0).afterCalls times).needsMarquee =
      decide (text.length > width) := hneeds
  have hdelay' : ((MarqueeText.new text width delay t0).afterCalls times).delay = delay :=
    hdelay
  refine ⟨?_, ?_, ?_⟩
  · intro hle
    have hn : ((MarqueeText.new text width delay t0).afterCalls times).needsMarquee = false := by
      rw [hneeds']; simp; omega
    rw [getDisplayText_short _ _ hn]
    exact htext'
  · intro hlt
    have hn : ((MarqueeText.new text width delay t0).afterCalls times).needsMarquee = true := by
      rw [hneeds']; simp; omega
    have := getDisplayText_long ((MarqueeText.new text width delay t0).afterCalls times) now hn
    rw [htext', hwidth'] at this
    exact this
  · intro hlt
    have hn : ((MarqueeText.new text width delay t0).afterCalls times).needsMarquee = true := by
      rw [hneeds']; simp; omega
    rw [getDisplayText_eq]
    simp only [hn, Bool.not_true, Bool.false_eq_true, if_false, htext', hdelay']
    split_ifs <;> rfl

/-- Witness for C9: the text `abcd` in a viewport of width `2`, first call 250 ms after
construction: the cursor has advanced to `1` and the window shows `bc`. -/
theorem getDisplayText_window_witness :
    (((MarqueeText.new ['a', 'b', 'c', 'd'] 2 200 0).afterCalls []).getDisplayText
      250000000).1.length = 2 :=
  ((getDisplayText_window ['a', 'b', 'c', 'd'] 2 200 0 [] 250000000).2.1 (by decide)).1

/-- C10, counterexample: the text `abcd` in a viewport of width `2` with a 200 ms delay, built
at time `0`. A call at 150 ms returns `ab` (no advance yet); the next call, at 250 ms, is only
100 ms later but more than 200 ms after construction, so the cursor advances and it returns
`bc`. -/
theorem getDisplayText_close_calls_differ :
    (250000000 : Int) - 150000000 < 200 * 1000000 ∧
    ((MarqueeText.new ['a', 'b', 'c', 'd'] 2 200 0).getDisplayText 150000000).1 = ['a', 'b'] ∧
    (((MarqueeText.new ['a', 'b', 'c', 'd'] 2 200 0).getDisplayText
      150000000).2.getDisplayText 250000000).1 = ['b', 'c'] := by
  decide

/-- C10, amended: a call made no more than the delay after the last cursor advance
(`lastUpdate`, the construction time until the first advance) returns the same string as the
prior call and leaves the object unchanged; in particular a call made no more than the delay
after a prior call that advanced the cursor returns the same string as that call. -/
theorem getDisplayText_rate_limited (m : MarqueeText) (t1 t2 : Int) :
    (t2 - (m.getDisplayText t1).2.lastUpdate ≤ m.delay * 1000000 →
      ((m.getDisplayText t1).2.getDisplayText t2).1 = (m.getDisplayText t1).1 ∧
      ((m.getDisplayText t1).2.getDisplayText t2).2 = (m.getDisplayText t1).2) ∧
    (t1 - m.lastUpdate > m.delay * 1000000 → t2 - t1 ≤ m.delay * 1000000 →
      ((m.getDisplayText t1).2.getDisplayText t2).1 = (m.getDisplayText t1).1 ∧
      ((m.getDisplayText t1).2.getDisplayText t2).2 = (m.getDisplayText t1).2) := by
  have same : ∀ m1 : MarqueeText, m1 = (m.getDisplayText t1).2 →
      ¬ (t2 - m1.lastUpdate > m1.delay * 1000000) →
      (m1.getDisplayText t2).1 = (m.getDisplayText t1).1 ∧ (m1.getDisplayText t2).2 = m1 := by
    intro m1 hm1 hno
    rw [getDisplayText_eq m1 t2]
    subst hm1
    rw [getDisplayText_eq m t1] at hno ⊢
    cases hneed : m.needsMarquee
    · simp [hneed]
    · simp only [hneed, Bool.not_true, Bool.false_eq_true, if_false] at hno ⊢
      by_cases hadv : t1 - m.lastUpdate > m.delay * 1000000
      · simp only [hadv, if_true] at hno ⊢
        simp [hno]
      · simp only [hadv, if_false] at hno ⊢
        simp [hno, hneed]
  have hdelay : (m.getDisplayText t1).2.delay = m.delay := (getDisplayText_fields m t1).2.2.1
  constructor
  · intro h
    exact same _ rfl (by rw [hdelay]; omega)
  · intro hadv hclose
    cases hneed : m.needsMarquee
    · rw [getDisplayText_short m t1 hneed]
      show (m.getDisplayText t2).1 = m.text ∧ (m.getDisplayText t2).2 = m
      rw [getDisplayText_short m t2 hneed]
      exact ⟨rfl, rfl⟩
    · have hlast : (m.getDisplayText t1).2.lastUpdate = t1 := by
        rw [getDisplayText_eq]
        simp [hneed, hadv]
      exact same _ rfl (by rw [hdelay, hlast]; omega)

/-- Witness for C10 (amended): `abcd` in a viewport of width `2`; the call at 250 ms advances
the cursor, the call at 300 ms returns the same string. -/
theorem getDisplayText_rate_limited_witness :
    (((MarqueeText.new ['a', 'b', 'c', 'd'] 2 200 0).getDisplayText
        250000000).2.getDisplayText 300000000).1 =
      ((MarqueeText.new ['a', 'b', 'c', 'd'] 2 200 0).getDisplayText 250000000).1 :=
  ((getDisplayText_rate_limited (MarqueeText.new ['a', 'b', 'c', 'd'] 2 200 0)
    250000000 300000000).2 (by decide) (by decide)).1

/-! ## Marquee periodicity -/

theorem afterCalls_append (m : MarqueeText) (times : List Int) (now : Int) :
    m.afterCalls (times ++ [now]) = ((m.afterCalls times).getDisplayText now).2 := by
  simp [MarqueeText.afterCalls, List.foldl_append]

theorem spacedTimes_succ (t0 gap : Int) (k : Nat) :
    spacedTimes t0 gap (k + 1) = spacedTimes t0 gap k ++ [t0 + ((k : Int) + 1) * gap] := by
  simp [spacedTimes, List.range_succ]

theorem getDisplayText_marqueeWindow (m : MarqueeText) (now : Int) (h : m.needsMarquee = true) :
    (m.getDisplayText now).1 =
      marqueeWindow m.text m.displayWidth (m.getDisplayText now).2.position := by
  rw [getDisplayText_eq]
  simp only [h, Bool.not_true, Bool.false_eq_true, if_false, marqueeWindow]
  split_ifs <;> rfl

/-- The `k`-th string of evenly spaced calls is the window at the cursor after `k` calls. -/
theorem nthDisplay_eq (m : MarqueeText) (t0 gap : Int) (k : Nat) (hk : 1 ≤ k)
    (h : m.needsMarquee = true) :
    m.nthDisplay t0 gap k =
      marqueeWindow m.text m.displayWidth (m.afterCalls (spacedTimes t0 gap k)).position := by
  obtain ⟨j, rfl⟩ : ∃ j, k = j + 1 := ⟨k - 1, by omega⟩
  have hneeds : (m.afterCalls (spacedTimes t0 gap j)).needsMarquee = true := by
    rw [(afterCalls_fields _ m).2.2.2]; exact h
  unfold MarqueeText.nthDisplay
  rw [spacedTimes_succ, afterCalls_append, Nat.add_sub_cancel]
  have hcast : t0 + ((j + 1 : Nat) : Int) * gap = t0 + ((j : Int) + 1) * gap := by push_cast; ring
  rw [hcast, getDisplayText_marqueeWindow _ _ hneeds, (afterCalls_fields _ m).1,
    (afterCalls_fields _ m).2.1]

/-- Calls spaced more than the delay apart: every call advances the cursor. -/
theorem afterCalls_wide_gap (text : List Char) (width : Nat) (delay t0 gap : Int)
    (hlong : width < text.length) (hgap : delay * 1000000 < gap) (j : Nat) :
    (MarqueeText.new text width delay t0).afterCalls (spacedTimes t0 gap j) =
      { text := text, position := j % (text.length + 3), displayWidth := width,
        lastUpdate := t0 + (j : Int) * gap, delay := delay, needsMarquee := true } := by
  induction j with
  | zero =>
    simp [spacedTimes, MarqueeText.afterCalls, MarqueeText.new, hlong]
  | succ j ih =>
    rw [spacedTimes_succ, afterCalls_append, ih, getDisplayText_eq]
    have hdiff : t0 + ((j : Int) + 1) * gap - (t0 + (j : Int) * gap) = gap := by ring
    simp only [Bool.not_true, Bool.false_eq_true, if_false, hdiff, gt_iff_lt, hgap, if_true]
    have hpos : (j % (text.length + 3) + 1) % (text.length + 3) = (j + 1) % (text.length + 3) :=
      Nat.mod_add_mod _ _ _
    rw [hpos]
    push_cast
    rfl

/-- Calls spaced exactly the delay apart: the strict gate lets the cursor advance on every
second call only. -/
theorem afterCalls_exact_gap (text : List Char) (width : Nat) (delay t0 : Int)
    (hlong : width < text.length) (hdelay : 0 < delay) (j : Nat) :
    (MarqueeText.new text width delay t0).afterCalls (spacedTimes t0 (delay * 1000000) j) =
      { text := text, position := (j / 2) % (text.length + 3), displayWidth := width,
        lastUpdate := t0 + 2 * ((j / 2 : Nat) : Int) * (delay * 1000000), delay := delay,
        needsMarquee := true } := by
  induction j with
  | zero =>
    simp [spacedTimes, MarqueeText.afterCalls, MarqueeText.new, hlong]
  | succ j ih =>
    rw [spacedTimes_succ, afterCalls_append, ih, getDisplayText_eq]
    simp only [Bool.not_true, Bool.false_eq_true, if_false]
    rcases Nat.even_or_odd' j with ⟨q, hq | hq⟩
    · have h1 : j / 2 = q := by omega
      have h2 : (j + 1) / 2 = q := by omega
      rw [h1, h2]
      have hdiff : ¬ (t0 + ((j : Int) + 1) * (delay * 1000000)
          - (t0 + 2 * (q : Int) * (delay * 1000000)) > delay * 1000000) := by
        rw [hq]
        push_cast
        have : t0 + (2 * (q : Int) + 1) * (delay * 1000000)
            - (t0 + 2 * (q : Int) * (delay * 1000000)) = delay * 1000000 := by ring
        rw [this]
        exact lt_irrefl _
      rw [if_neg hdiff]
    · have h1 : j / 2 = q := by omega
      have h2 : (j + 1) / 2 = q + 1 := by omega
      rw [h1, h2]
      have hdiff : t0 + ((j : Int) + 1) * (delay * 1000000)
          - (t0 + 2 * (q : Int) * (delay * 1000000)) > delay * 1000000 := by
        rw [hq]
        push_cast
        have : t0 + (2 * (q : Int) + 1 + 1) * (delay * 1000000)
            - (t0 + 2 * (q : Int) * (delay * 1000000)) = 2 * (delay * 1000000) := by ring
        rw [this]
        omega
      rw [if_pos hdiff]
      have hpos : (q % (text.length + 3) + 1) % (text.length + 3) =
          (q + 1) % (text.length + 3) := Nat.mod_add_mod _ _ _
      have hlast : t0 + ((j : Int) + 1) * (delay * 1000000) =
          t0 + 2 * (((q + 1 : Nat) : Int)) * (delay * 1000000) := by
        rw [hq]
        push_cast
        ring
      rw [hpos, hlast]

/-- C11, counterexample: the text `abcd` (so `len(text) + 3 = 7`) in a viewport of width `2`
with a 200 ms delay, built at time `0` and called every 200 ms. The first call returns `ab`, the
eighth call returns two spaces: the cursor has advanced on every second call only. -/
theorem evenly_spaced_calls_not_periodic :
    (MarqueeText.new ['a', 'b', 'c', 'd'] 2 200 0).nthDisplay 0 (200 * 1000000) 1
      = ['a', 'b'] ∧
    (MarqueeText.new ['a', 'b', 'c', 'd'] 2 200 0).nthDisplay 0 (200 * 1000000) (1 + (4 + 3))
      = [' ', ' '] := by
  decide

/-- C11, amended: for a text longer than the viewport and calls spaced exactly the delay apart
(the first one a delay after construction, the delay positive), the cursor advances on every
second call and the strings are periodic with period `2 * (len(text) + 3)`; for calls spaced by
a fixed interval longer than the delay every call advances the cursor and the period is
`len(text) + 3`. -/
theorem evenly_spaced_calls_periodic (text : List Char) (width : Nat) (delay t0 : Int) (k : Nat)
    (hlong : width < text.length) (hk : 1 ≤ k) :
    (0 < delay →
      (MarqueeText.new text width delay t0).nthDisplay t0 (delay * 1000000)
          (k + 2 * (text.length + 3)) =
        (MarqueeText.new text width delay t0).nthDisplay t0 (delay * 1000000) k) ∧
    (∀ gap : Int, delay * 1000000 < gap →
      (MarqueeText.new text width delay t0).nthDisplay t0 gap (k + (text.length + 3)) =
        (MarqueeText.new text width delay t0).nthDisplay t0 gap k) := by
  have hneeds : (MarqueeText.new text width delay t0).needsMarquee = true := by
    simp [MarqueeText.new, hlong]
  constructor
  · intro hdelay
    rw [nthDisplay_eq _ _ _ _ (by omega) hneeds, nthDisplay_eq _ _ _ _ hk hneeds,
      afterCalls_exact_gap text width delay t0 hlong hdelay,
      afterCalls_exact_gap text width delay t0 hlong hdelay]
    have : (k + 2 * (text.length + 3)) / 2 % (text.length + 3) = k / 2 % (text.length + 3) := by
      have h2 : (k + 2 * (text.length + 3)) / 2 = k / 2 + (text.length + 3) := by omega
      rw [h2, Nat.add_mod_right]
    simp only [this]
  · intro gap hgap
    rw [nthDisplay_eq _ _ _ _ (by omega) hneeds, nthDisplay_eq _ _ _ _ hk hneeds,
      afterCalls_wide_gap text width delay t0 gap hlong hgap,
      afterCalls_wide_gap text width delay t0 gap hlong hgap]
    simp only [Nat.add_mod_right]

/-- Witness for C11 (amended): `abcd` in a viewport of width `2`, delay 200 ms, calls every
200 ms: the fifteenth call returns the string of the first. -/
theorem evenly_spaced_calls_periodic_witness :
    (MarqueeText.new ['a', 'b', 'c', 'd'] 2 200 0).nthDisplay 0 (200 * 1000000)
        (1 + 2 * (['a', 'b', 'c', 'd'].length + 3)) =
      (MarqueeText.new ['a', 'b', 'c', 'd'] 2 200 0).nthDisplay 0 (200 * 1000000) 1 :=
  (evenly_spaced_calls_periodic ['a', 'b', 'c', 'd'] 2 200 0 1 (by decide) (by decide)).1
    (by decide)

/-! ## Rounding to `float` -/

theorem roundHalfEven_intCast (n : Int) : roundHalfEven (n : ℚ) = n := by
  simp [roundHalfEven]

theorem roundHalfEven_error (q : ℚ) : |(roundHalfEven q : ℚ) - q| ≤ 1 / 2 := by
  have h1 := Int.floor_le q
  have h2 := Int.lt_floor_add_one q
  unfold roundHalfEven
  simp only
  rw [abs_le]
  split_ifs with a b c
  · constructor <;> linarith
  · push_cast
    constructor <;> linarith
  · constructor <;> linarith
  · push_cast
    constructor <;> linarith

theorem roundHalfEven_nonneg {q : ℚ} (h : 0 ≤ q) : 0 ≤ roundHalfEven q := by
  have h0 : (0 : Int) ≤ ⌊q⌋ := Int.floor_nonneg.mpr h
  unfold roundHalfEven
  simp only
  split_ifs <;> omega

theorem roundToFloat_zero : roundToFloat 0 = 0 := by
  simp [roundToFloat, roundHalfEven]

theorem roundToFloat_nonneg {q : ℚ} (h : 0 ≤ q) : 0 ≤ roundToFloat q := by
  unfold roundToFloat
  simp only
  apply mul_nonneg
  · exact_mod_cast roundHalfEven_nonneg (div_nonneg h (by positivity))
  · positivity

/-- The exponent of a positive number at or above the smallest normal `float`. -/
theorem exponent_of_normal {x : ℚ} (hx : (2 : ℚ) ^ (-126 : Int) ≤ x) :
    max (Int.log 2 |x|) (-126) = Int.log 2 x ∧ (2 : ℚ) ^ (Int.log 2 x) ≤ x := by
  have hpos : 0 < x := lt_of_lt_of_le (by positivity) hx
  have hlog : (-126 : Int) ≤ Int.log 2 x := by
    rw [← Int.zpow_le_iff_le_log (by norm_num) hpos]
    exact_mod_cast hx
  have hle : (2 : ℚ) ^ (Int.log 2 x) ≤ x := by
    have := Int.zpow_log_le_self (b := 2) (r := x) (by norm_num) hpos
    exact_mod_cast this
  rw [abs_of_pos hpos]
  exact ⟨max_eq_left hlog, hle⟩

/-- Relative error of one rounding in the normal range: at most `2^-24`. -/
theorem roundToFloat_error {x : ℚ} (hx : (2 : ℚ) ^ (-126 : Int) ≤ x) :
    |roundToFloat x - x| ≤ x / 16777216 := by
  obtain ⟨he, hle⟩ := exponent_of_normal hx
  unfold roundToFloat
  simp only
  rw [he]
  have hu : (0 : ℚ) < (2 : ℚ) ^ (Int.log 2 x - 23) := by positivity
  have herr := roundHalfEven_error (x / (2 : ℚ) ^ (Int.log 2 x - 23))
  have hfac : (roundHalfEven (x / (2 : ℚ) ^ (Int.log 2 x - 23)) : ℚ) * (2 : ℚ) ^ (Int.log 2 x - 23)
      - x = ((roundHalfEven (x / (2 : ℚ) ^ (Int.log 2 x - 23)) : ℚ)
        - x / (2 : ℚ) ^ (Int.log 2 x - 23)) * (2 : ℚ) ^ (Int.log 2 x - 23) := by
    field_simp
  rw [hfac, abs_mul, abs_of_pos hu]
  have hsplit : (2 : ℚ) ^ (Int.log 2 x - 23) = (2 : ℚ) ^ (Int.log 2 x) / 8388608 := by
    rw [zpow_sub₀ (by norm_num)]
    norm_num
  calc |(roundHalfEven (x / (2 : ℚ) ^ (Int.log 2 x - 23)) : ℚ)
          - x / (2 : ℚ) ^ (Int.log 2 x - 23)| * (2 : ℚ) ^ (Int.log 2 x - 23)
      ≤ 1 / 2 * (2 : ℚ) ^ (Int.log 2 x - 23) := mul_le_mul_of_nonneg_right herr hu.le
    _ = (2 : ℚ) ^ (Int.log 2 x) / 16777216 := by rw [hsplit]; ring
    _ ≤ x / 16777216 := by
        apply div_le_div_of_nonneg_right hle (by norm_num)

/-- Rounding when the binade of `x` is known. -/
theorem roundToFloat_eval {x : ℚ} (e : Int) (he : -126 ≤ e) (h1 : (2 : ℚ) ^ e ≤ x)
    (h2 : x < (2 : ℚ) ^ (e + 1)) :
    roundToFloat x = (roundHalfEven (x / (2 : ℚ) ^ (e - 23)) : ℚ) * (2 : ℚ) ^ (e - 23) := by
  have hpos : 0 < x := lt_of_lt_of_le (by positivity) h1
  have hlog : Int.log 2 x = e := by
    apply le_antisymm
    · have : Int.log 2 x < e + 1 := by
        rw [← Int.lt_zpow_iff_log_lt (by norm_num) hpos]
        exact_mod_cast h2
      omega
    · rw [← Int.zpow_le_iff_le_log (by norm_num) hpos]
      exact_mod_cast h1
  unfold roundToFloat
  simp only
  rw [abs_of_pos hpos, hlog, max_eq_left he]

/-- Every integer from `0` to `2^24` is a `float`. -/
theorem roundToFloat_natCast (n : Nat) (hn : n ≤ 16777216) : roundToFloat (n : ℚ) = n := by
  rcases Nat.eq_zero_or_pos n with h0 | hpos
  · subst h0
    simpa using roundToFloat_zero
  · have hk1 : 2 ^ Nat.log 2 n ≤ n := Nat.pow_log_le_self 2 (by omega)
    have hk2 : n < 2 ^ (Nat.log 2 n + 1) := Nat.lt_pow_succ_log_self (by norm_num) n
    have hk : Nat.log 2 n ≤ 24 := by
      by_contra hcon
      have : 2 ^ 25 ≤ 2 ^ Nat.log 2 n := Nat.pow_le_pow_right (by norm_num) (by omega)
      omega
    have e1 : (2 : ℚ) ^ ((Nat.log 2 n : Nat) : Int) ≤ (n : ℚ) := by
      rw [zpow_natCast]
      exact_mod_cast hk1
    have e2 : (n : ℚ) < (2 : ℚ) ^ (((Nat.log 2 n : Nat) : Int) + 1) := by
      have : (((Nat.log 2 n : Nat) : Int) + 1) = ((Nat.log 2 n + 1 : Nat) : Int) := by push_cast; rfl
      rw [this, zpow_natCast]
      exact_mod_cast hk2
    rw [roundToFloat_eval _ (by omega) e1 e2]
    rcases Nat.lt_or_ge (Nat.log 2 n) 24 with hlt | hge
    · obtain ⟨j, hj⟩ : ∃ j : Nat, Nat.log 2 n + j = 23 := ⟨23 - Nat.log 2 n, by omega⟩
      have hexp : ((Nat.log 2 n : Nat) : Int) - 23 = -((j : Nat) : Int) := by omega
      rw [hexp, zpow_neg, zpow_natCast]
      have hq : (n : ℚ) / ((2 : ℚ) ^ j)⁻¹ = (((n * 2 ^ j : Nat) : Int) : ℚ) := by
        push_cast
        field_simp
      rw [hq, roundHalfEven_intCast]
      push_cast
      field_simp
    · have hlog : Nat.log 2 n = 24 := by omega
      have hn' : n = 16777216 := by
        rw [hlog] at hk1
        omega
      subst hn'
      rw [hlog]
      have hq : ((16777216 : Nat) : ℚ) / (2 : ℚ) ^ (((24 : Nat) : Int) - 23)
          = (((8388608 : Int)) : ℚ) := by norm_num
      rw [hq, roundHalfEven_intCast]
      norm_num

theorem roundToFloat_intCast (w : Int) (h0 : 0 ≤ w) (h1 : w ≤ 16777216) :
    roundToFloat (w : ℚ) = w := by
  have h := roundToFloat_natCast w.toNat (by omega)
  have hc : ((w.toNat : Nat) : ℚ) = (w : ℚ) := by
    have := Int.toNat_of_nonneg h0
    exact_mod_cast this
  rw [hc] at h
  exact h

theorem roundToFloat_one : roundToFloat 1 = 1 := by
  simpa using roundToFloat_natCast 1 (by norm_num)

/-- The integer `2^24 + 1` is not a `float`: it rounds to `2^24`. -/
theorem roundToFloat_16777217 : roundToFloat 16777217 = 16777216 := by
  rw [roundToFloat_eval 24 (by norm_num) (by norm_num) (by norm_num)]
  have hq : (16777217 : ℚ) / (2 : ℚ) ^ ((24 : Int) - 23) = 16777217 / 2 := by norm_num
  have hr : roundHalfEven (16777217 / 2) = 8388608 := by
    have hf : ⌊(16777217 / 2 : ℚ)⌋ = 8388608 := by
      rw [Int.floor_eq_iff]
      constructor <;> norm_num
    unfold roundHalfEven
    simp only [hf]
    norm_num
  rw [hq, hr]
  norm_num

theorem roundToFloat_bounds {x : ℚ} (hx : (2 : ℚ) ^ (-126 : Int) ≤ x) :
    x * (16777215 / 16777216) ≤ roundToFloat x ∧ roundToFloat x ≤ x * (16777217 / 16777216) := by
  have h := abs_le.mp (roundToFloat_error hx)
  constructor <;> linarith [h.1, h.2]

theorem asSeconds_zero : asSeconds 0 = 0 := by
  simp [asSeconds, roundToFloat_zero]

/-- Two roundings: `asSeconds t` is within a factor `(1 ± 2^-24)^2` of `t / 10^6`. -/
theorem asSeconds_bounds (t : Int) (ht : 1 ≤ t) :
    (t : ℚ) / 1000000 * (16777215 / 16777216) ^ 2 ≤ asSeconds t ∧
      asSeconds t ≤ (t : ℚ) / 1000000 * (16777217 / 16777216) ^ 2 := by
  have htq : (1 : ℚ) ≤ (t : ℚ) := by exact_mod_cast ht
  have hsmall : (2 : ℚ) ^ (-126 : Int) ≤ 1 / 2000000 := by
    rw [zpow_neg, ← one_div]
    apply one_div_le_one_div_of_le (by norm_num)
    norm_num
  have h1 := roundToFloat_bounds (x := (t : ℚ)) (le_trans (le_trans hsmall (by norm_num)) htq)
  have hx2 : (2 : ℚ) ^ (-126 : Int) ≤ roundToFloat (t : ℚ) / 1000000 := by
    apply le_trans hsmall
    have hhalf : (1 : ℚ) / 2 ≤ roundToFloat (t : ℚ) := by nlinarith [h1.1]
    calc (1 : ℚ) / 2000000 = 1 / 2 / 1000000 := by norm_num
      _ ≤ roundToFloat (t : ℚ) / 1000000 := div_le_div_of_nonneg_right hhalf (by norm_num)
  have h2 := roundToFloat_bounds hx2
  unfold asSeconds
  constructor
  · calc (t : ℚ) / 1000000 * (16777215 / 16777216) ^ 2
        = (t : ℚ) * (16777215 / 16777216) / 1000000 * (16777215 / 16777216) := by ring
      _ ≤ roundToFloat (t : ℚ) / 1000000 * (16777215 / 16777216) := by
          apply mul_le_mul_of_nonneg_right _ (by norm_num)
          exact div_le_div_of_nonneg_right h1.1 (by norm_num)
      _ ≤ _ := h2.1
  · calc roundToFloat (roundToFloat (t : ℚ) / 1000000)
        ≤ roundToFloat (t : ℚ) / 1000000 * (16777217 / 16777216) := h2.2
      _ ≤ (t : ℚ) * (16777217 / 16777216) / 1000000 * (16777217 / 16777216) := by
          apply mul_le_mul_of_nonneg_right _ (by norm_num)
          exact div_le_div_of_nonneg_right h1.2 (by norm_num)
      _ = _ := by ring

theorem asSeconds_pos (t : Int) (ht : 1 ≤ t) : 0 < asSeconds t := by
  have htq : (1 : ℚ) ≤ (t : ℚ) := by exact_mod_cast ht
  have h := (asSeconds_bounds t ht).1
  have : 0 < (t : ℚ) / 1000000 * (16777215 / 16777216) ^ 2 := by positivity
  linarith

theorem truncToInt_of_nonneg {q : ℚ} (h0 : 0 ≤ q) (h1 : q < 2147483648) :
    truncToInt q = ⌊q⌋ := by
  have hf0 : (0 : Int) ≤ ⌊q⌋ := Int.floor_nonneg.mpr h0
  have hf1 : ⌊q⌋ < 2147483648 := by
    rw [Int.floor_lt]
    exact_mod_cast h1
  unfold truncToInt INT_MIN INT_MAX
  simp only [h0, if_true]
  rw [if_pos (by omega)]

theorem progressProduct_zero_elapsed (duration width : Int) :
    progressProduct 0 duration width = 0 := by
  unfold progressProduct
  split_ifs <;> simp [asSeconds_zero, roundToFloat_zero]

theorem progressProduct_zero_duration (currentTime width : Int) :
    progressProduct currentTime 0 width = 0 := by
  simp [progressProduct, roundToFloat_zero]

/-- Six roundings: the `float` product `width * progress` is within `7 * W / 2^24` of the exact
product `elapsed / total * W`. -/
theorem progressProduct_error (elapsed total W : Int) (h0 : 0 ≤ elapsed) (h1 : elapsed ≤ total)
    (ht : 0 < total) (hmax : total ≤ 9223372036854775807) (hW0 : 0 ≤ W) (hW : W ≤ 16777216) :
    |progressProduct elapsed total W - (elapsed : ℚ) / (total : ℚ) * (W : ℚ)|
      ≤ 7 * (W : ℚ) / 16777216 := by
  have hWq0 : (0 : ℚ) ≤ (W : ℚ) := by exact_mod_cast hW0
  rcases eq_or_lt_of_le h0 with he0 | hepos
  · subst he0
    rw [progressProduct_zero_elapsed]
    simp only [Int.cast_zero, zero_div, zero_mul, sub_zero, abs_zero]
    positivity
  rcases eq_or_lt_of_le hW0 with hw0 | hwpos
  · subst hw0
    simp [progressProduct, roundToFloat_zero]
  have he1 : (1 : ℚ) ≤ (elapsed : ℚ) := by exact_mod_cast hepos
  have ht1 : (1 : ℚ) ≤ (total : ℚ) := by exact_mod_cast ht
  have hw1 : (1 : ℚ) ≤ (W : ℚ) := by exact_mod_cast hwpos
  have hetq : (elapsed : ℚ) ≤ (total : ℚ) := by exact_mod_cast h1
  have htmax : (total : ℚ) ≤ 9223372036854775807 := by exact_mod_cast hmax
  have htpos : (0 : ℚ) < (total : ℚ) := by linarith
  obtain ⟨ae1, ae2⟩ := asSeconds_bounds elapsed hepos
  obtain ⟨at1, at2⟩ := asSeconds_bounds total ht
  have hAe := asSeconds_pos elapsed hepos
  have hAt := asSeconds_pos total ht
  -- the exact ratio
  have hr0 : (0 : ℚ) < (elapsed : ℚ) / (total : ℚ) := by positivity
  have hr1 : (elapsed : ℚ) / (total : ℚ) ≤ 1 := (div_le_one htpos).mpr hetq
  have hrmin : 1 / 9223372036854775807 ≤ (elapsed : ℚ) / (total : ℚ) := by
    apply div_le_div₀ (by linarith) he1 htpos htmax
  -- the quotient of the two `asSeconds`
  have hq1 : (elapsed : ℚ) / (total : ℚ) * ((16777215 / 16777216) ^ 2 / (16777217 / 16777216) ^ 2)
      ≤ asSeconds elapsed / asSeconds total := by
    have : (elapsed : ℚ) / 1000000 * (16777215 / 16777216) ^ 2 /
        ((total : ℚ) / 1000000 * (16777217 / 16777216) ^ 2) ≤
        asSeconds elapsed / asSeconds total :=
      div_le_div₀ hAe.le ae1 hAt at2
    refine le_trans (le_of_eq ?_) this
    field_simp
  have hq2 : asSeconds elapsed / asSeconds total ≤
      (elapsed : ℚ) / (total : ℚ) * ((16777217 / 16777216) ^ 2 / (16777215 / 16777216) ^ 2) := by
    have : asSeconds elapsed / asSeconds total ≤
        (elapsed : ℚ) / 1000000 * (16777217 / 16777216) ^ 2 /
          ((total : ℚ) / 1000000 * (16777215 / 16777216) ^ 2) :=
      div_le_div₀ (by positivity) ae2 (by positivity) at1
    refine le_trans this (le_of_eq ?_)
    field_simp
  have hsmall : (2 : ℚ) ^ (-126 : Int) ≤ 1 / 36893488147419103232 := by
    rw [zpow_neg, ← one_div]
    apply one_div_le_one_div_of_le (by norm_num)
    norm_num
  have hqn : (1 : ℚ) / 18446744073709551616 ≤ asSeconds elapsed / asSeconds total := by
    refine le_trans ?_ hq1
    have hc : (0 : ℚ) ≤ (16777215 / 16777216) ^ 2 / (16777217 / 16777216) ^ 2 := by positivity
    calc (1 : ℚ) / 18446744073709551616
        ≤ 1 / 9223372036854775807 * ((16777215 / 16777216) ^ 2 / (16777217 / 16777216) ^ 2) := by
          norm_num
      _ ≤ _ := mul_le_mul_of_nonneg_right hrmin hc
  obtain ⟨p1, p2⟩ := roundToFloat_bounds (x := asSeconds elapsed / asSeconds total)
    (le_trans hsmall (le_trans (by norm_num) hqn))
  -- the product with the width
  have hwf : roundToFloat (W : ℚ) = W := roundToFloat_intCast W hW0 hW
  have hpn : (1 : ℚ) / 36893488147419103232 ≤
      roundToFloat (asSeconds elapsed / asSeconds total) := by
    calc (1 : ℚ) / 36893488147419103232
        ≤ 1 / 18446744073709551616 * (16777215 / 16777216) := by norm_num
      _ ≤ asSeconds elapsed / asSeconds total * (16777215 / 16777216) :=
          mul_le_mul_of_nonneg_right hqn (by norm_num)
      _ ≤ _ := p1
  have hprod : (2 : ℚ) ^ (-126 : Int) ≤
      (W : ℚ) * roundToFloat (asSeconds elapsed / asSeconds total) := by
    apply le_trans hsmall
    apply le_trans hpn
    exact le_mul_of_one_le_left (le_trans (by norm_num) hpn) hw1
  obtain ⟨v1, v2⟩ := roundToFloat_bounds hprod
  have hv : progressProduct elapsed total W =
      roundToFloat ((W : ℚ) * roundToFloat (asSeconds elapsed / asSeconds total)) := by
    unfold progressProduct
    rw [if_pos (ne_of_gt ht), hwf]
  rw [hv, abs_le]
  have hp0 : (0 : ℚ) ≤ roundToFloat (asSeconds elapsed / asSeconds total) := by linarith
  -- lower and upper bound of the rounded product in terms of the exact ratio
  have low : (elapsed : ℚ) / (total : ℚ) * (W : ℚ) *
      ((16777215 / 16777216) ^ 4 / (16777217 / 16777216) ^ 2) ≤
      roundToFloat ((W : ℚ) * roundToFloat (asSeconds elapsed / asSeconds total)) := by
    calc (elapsed : ℚ) / (total : ℚ) * (W : ℚ) *
          ((16777215 / 16777216) ^ 4 / (16777217 / 16777216) ^ 2)
        = (W : ℚ) * ((elapsed : ℚ) / (total : ℚ) *
            ((16777215 / 16777216) ^ 2 / (16777217 / 16777216) ^ 2) * (16777215 / 16777216))
            * (16777215 / 16777216) := by ring
      _ ≤ (W : ℚ) * (asSeconds elapsed / asSeconds total * (16777215 / 16777216))
            * (16777215 / 16777216) := by
          apply mul_le_mul_of_nonneg_right _ (by norm_num)
          apply mul_le_mul_of_nonneg_left _ hWq0
          exact mul_le_mul_of_nonneg_right hq1 (by norm_num)
      _ ≤ (W : ℚ) * roundToFloat (asSeconds elapsed / asSeconds total)
            * (16777215 / 16777216) := by
          apply mul_le_mul_of_nonneg_right _ (by norm_num)
          exact mul_le_mul_of_nonneg_left p1 hWq0
      _ ≤ _ := v1
  have high : roundToFloat ((W : ℚ) * roundToFloat (asSeconds elapsed / asSeconds total)) ≤
      (elapsed : ℚ) / (total : ℚ) * (W : ℚ) *
        ((16777217 / 16777216) ^ 4 / (16777215 / 16777216) ^ 2) := by
    calc roundToFloat ((W : ℚ) * roundToFloat (asSeconds elapsed / asSeconds total))
        ≤ (W : ℚ) * roundToFloat (asSeconds elapsed / asSeconds total)
            * (16777217 / 16777216) := v2
      _ ≤ (W : ℚ) * (asSeconds elapsed / asSeconds total * (16777217 / 16777216))
            * (16777217 / 16777216) := by
          apply mul_le_mul_of_nonneg_right _ (by norm_num)
          exact mul_le_mul_of_nonneg_left p2 hWq0
      _ ≤ (W : ℚ) * ((elapsed : ℚ) / (total : ℚ) *
            ((16777217 / 16777216) ^ 2 / (16777215 / 16777216) ^ 2) * (16777217 / 16777216))
            * (16777217 / 16777216) := by
          apply mul_le_mul_of_nonneg_right _ (by norm_num)
          apply mul_le_mul_of_nonneg_left _ hWq0
          exact mul_le_mul_of_nonneg_right hq2 (by norm_num)
      _ = _ := by ring
  have hx0 : (0 : ℚ) ≤ (elapsed : ℚ) / (total : ℚ) * (W : ℚ) := by positivity
  have hxW : (elapsed : ℚ) / (total : ℚ) * (W : ℚ) ≤ (W : ℚ) :=
    mul_le_of_le_one_left hWq0 hr1
  have hxe : (elapsed : ℚ) / (total : ℚ) * (W : ℚ) * (7 / 16777216) ≤
      (W : ℚ) * (7 / 16777216) := mul_le_mul_of_nonneg_right hxW (by norm_num)
  have clo : (1 : ℚ) - 7 / 16777216 ≤ (16777215 / 16777216) ^ 4 / (16777217 / 16777216) ^ 2 := by
    norm_num
  have chi : (16777217 / 16777216 : ℚ) ^ 4 / (16777215 / 16777216) ^ 2 ≤ 1 + 7 / 16777216 := by
    norm_num
  have low2 : (elapsed : ℚ) / (total : ℚ) * (W : ℚ) * (1 - 7 / 16777216) ≤
      roundToFloat ((W : ℚ) * roundToFloat (asSeconds elapsed / asSeconds total)) :=
    le_trans (mul_le_mul_of_nonneg_left clo hx0) low
  have high2 : roundToFloat ((W : ℚ) * roundToFloat (asSeconds elapsed / asSeconds total)) ≤
      (elapsed : ℚ) / (total : ℚ) * (W : ℚ) * (1 + 7 / 16777216) :=
    le_trans high (mul_le_mul_of_nonneg_left chi hx0)
  constructor
  · linarith
  · linarith

theorem truncToInt_zero : truncToInt 0 = 0 := by
  rw [truncToInt_of_nonneg le_rfl (by norm_num)]
  simp

theorem truncToInt_intCast (w : Int) (h0 : 0 ≤ w) (h1 : w ≤ 16777216) :
    truncToInt (w : ℚ) = w := by
  have hq0 : (0 : ℚ) ≤ (w : ℚ) := by exact_mod_cast h0
  have hq1 : (w : ℚ) ≤ 16777216 := by exact_mod_cast h1
  rw [truncToInt_of_nonneg hq0 (by linarith), Int.floor_intCast]

theorem progressPos_zero_duration (currentTime width : Int) :
    progressPos currentTime 0 width = 0 := by
  rw [progressPos, progressProduct_zero_duration, truncToInt_zero]

theorem progressPos_zero_elapsed (duration width : Int) :
    progressPos 0 duration width = 0 := by
  rw [progressPos, progressProduct_zero_elapsed, truncToInt_zero]

/-- With `elapsed = total > 0` the ratio is exactly `1` and the product is the width as a
`float`. -/
theorem progressProduct_full (duration width : Int) (h : 0 < duration) :
    progressProduct duration duration width = roundToFloat (roundToFloat (width : ℚ)) := by
  have hs : asSeconds duration ≠ 0 := ne_of_gt (asSeconds_pos duration h)
  unfold progressProduct
  rw [if_pos (ne_of_gt h), div_self hs, roundToFloat_one, mul_one]

theorem progressPos_full (duration width : Int) (h : 0 < duration) (h0 : 0 ≤ width)
    (h1 : width ≤ 16777216) : progressPos duration duration width = width := by
  rw [progressPos, progressProduct_full duration width h, roundToFloat_intCast width h0 h1,
    roundToFloat_intCast width h0 h1, truncToInt_intCast width h0 h1]

theorem progressPos_full_16777217 (duration : Int) (h : 0 < duration) :
    progressPos duration duration 16777217 = 16777216 := by
  rw [progressPos, progressProduct_full duration 16777217 h]
  have h1 : roundToFloat ((16777217 : Int) : ℚ) = ((16777216 : Int) : ℚ) := by
    simpa using roundToFloat_16777217
  rw [h1, roundToFloat_intCast 16777216 (by norm_num) (by norm_num),
    truncToInt_intCast 16777216 (by norm_num) (by norm_num)]

/-- The local `pos` for `0 ≤ elapsed ≤ total`, `total > 0` an `Int64` and `0 ≤ W ≤ 2^21`: the
truncated `float` product, between the floors of the exact product moved by the rounding
error. -/
theorem progressPos_bounds (elapsed total W : Int) (h0 : 0 ≤ elapsed) (h1 : elapsed ≤ total)
    (ht : 0 < total) (hmax : total ≤ 9223372036854775807) (hW0 : 0 ≤ W) (hW : W ≤ 2097152) :
    progressPos elapsed total W = ⌊progressProduct elapsed total W⌋ ∧
    ⌊(elapsed : ℚ) / (total : ℚ) * (W : ℚ) - 7 * (W : ℚ) / 16777216⌋
      ≤ progressPos elapsed total W ∧
    progressPos elapsed total W
      ≤ ⌊(elapsed : ℚ) / (total : ℚ) * (W : ℚ) + 7 * (W : ℚ) / 16777216⌋ ∧
    0 ≤ progressPos elapsed total W ∧ progressPos elapsed total W ≤ W := by
  have herr := abs_le.mp
    (progressProduct_error elapsed total W h0 h1 ht hmax hW0 (by omega))
  have hWq0 : (0 : ℚ) ≤ (W : ℚ) := by exact_mod_cast hW0
  have hWq1 : (W : ℚ) ≤ 2097152 := by exact_mod_cast hW
  have htpos : (0 : ℚ) < (total : ℚ) := by exact_mod_cast ht
  have hr0 : (0 : ℚ) ≤ (elapsed : ℚ) / (total : ℚ) :=
    div_nonneg (by exact_mod_cast h0) htpos.le
  have hr1 : (elapsed : ℚ) / (total : ℚ) ≤ 1 :=
    (div_le_one htpos).mpr (by exact_mod_cast h1)
  have hxW : (elapsed : ℚ) / (total : ℚ) * (W : ℚ) ≤ (W : ℚ) :=
    mul_le_of_le_one_left hWq0 hr1
  have hv0 : 0 ≤ progressProduct elapsed total W := by
    unfold progressProduct
    exact roundToFloat_nonneg (mul_nonneg (roundToFloat_nonneg hWq0)
      (by split_ifs
          · exact roundToFloat_nonneg (div_nonneg
              (by unfold asSeconds
                  exact roundToFloat_nonneg (div_nonneg
                    (roundToFloat_nonneg (by exact_mod_cast h0)) (by norm_num)))
              (by unfold asSeconds
                  exact roundToFloat_nonneg (div_nonneg
                    (roundToFloat_nonneg (by exact_mod_cast ht.le)) (by norm_num))))
          · exact le_rfl))
  have hvW : progressProduct elapsed total W < (W : ℚ) + 1 := by
    have : 7 * (W : ℚ) / 16777216 < 1 := by linarith
    linarith [herr.2]
  have hpos : progressPos elapsed total W = ⌊progressProduct elapsed total W⌋ := by
    rw [progressPos, truncToInt_of_nonneg hv0 (by linarith)]
  rw [hpos]
  refine ⟨rfl, Int.floor_mono (by linarith [herr.1]), Int.floor_mono (by linarith [herr.2]),
    Int.floor_nonneg.mpr hv0, ?_⟩
  have : ⌊progressProduct elapsed total W⌋ < W + 1 := by
    rw [Int.floor_lt]
    exact_mod_cast hvW
  omega

/-! ## The progress bar -/

/-- The bar is the bracketed list of its `width` cells. -/
theorem createProgressBar_eq (currentTime duration width : Int) :
    createProgressBar currentTime duration width =
      '[' :: (List.range width.toNat).map (barCell (progressPos currentTime duration width))
        ++ [']'] := by
  unfold createProgressBar
  simp only [List.nil_append]
  have h := foldl_append_singleton (barCell (progressPos currentTime duration width))
    (List.range width.toNat) ['[']
  have e : ('[' :: (List.range width.toNat).map
      (barCell (progressPos currentTime duration width))) =
      ['['] ++ (List.range width.toNat).map
        (barCell (progressPos currentTime duration width)) := rfl
  rw [List.cons_append, ← List.cons_append, e, ← h]
  congr 1
  apply List.foldl_ext
  intro bar i _
  show (if (i : Int) < progressPos currentTime duration width then bar ++ ['=']
    else if (i : Int) = progressPos currentTime duration width then bar ++ ['>']
    else bar ++ [' ']) = bar ++ [barCell (progressPos currentTime duration width) i]
  unfold barCell
  split_ifs <;> rfl

/-- The cells when `pos` is not negative: `pos` filled cells (at most `n`), then the cursor and
blanks if there is room. -/
theorem barCells_of_nonneg (p n : Nat) :
    (List.range n).map (barCell (p : Int)) =
      List.replicate (min p n) '=' ++
        (if p < n then '>' :: List.replicate (n - p - 1) ' ' else []) := by
  induction n with
  | zero => simp
  | succ n ih =>
    rw [List.range_succ, List.map_append, ih, List.map_singleton]
    rcases Nat.lt_trichotomy p n with h | h | h
    · have hc : barCell (p : Int) n = ' ' := by
        unfold barCell
        rw [if_neg (by omega), if_neg (by omega)]
      have e1 : min p (n + 1) = min p n := by omega
      have e2 : n + 1 - p - 1 = (n - p - 1) + 1 := by omega
      rw [hc, if_pos h, if_pos (by omega), e1, e2, List.replicate_succ' (n - p - 1)]
      simp
    · subst h
      have hc : barCell (p : Int) p = '>' := by
        unfold barCell
        rw [if_neg (by omega), if_pos rfl]
      rw [hc, if_neg (lt_irrefl p), if_pos (by omega)]
      simp
    · have hc : barCell (p : Int) n = '=' := by
        unfold barCell
        rw [if_pos (by omega)]
      have e1 : min p (n + 1) = min p n + 1 := by omega
      rw [hc, if_neg (by omega), if_neg (by omega), e1, List.replicate_succ' (min p n)]
      simp

/-- The cells when `pos` is negative: all blank. -/
theorem barCells_of_neg (pos : Int) (n : Nat) (h : pos < 0) :
    (List.range n).map (barCell pos) = List.replicate n ' ' := by
  apply List.ext_getElem
  · simp
  · intro i h1 h2
    simp only [List.getElem_map, List.getElem_range, List.getElem_replicate]
    unfold barCell
    rw [if_neg (by omega), if_neg (by omega)]

/-- C12, counterexample: with `elapsed = total = 1 s` and the width `16777217 = 2^24 + 1`, the
`float` product `width * progress` is `16777216`, so the bar is `[`, `16777216` filled cells,
the cursor `>` in the last cell and `]`: there is a cursor cell and only `W - 1` cells are
filled. -/
theorem full_bar_beyond_float_precision :
    createProgressBar 1000000 1000000 16777217 =
      '[' :: (List.replicate 16777216 '=' ++ ['>']) ++ [']'] ∧
    (createProgressBar 1000000 1000000 16777217).count '>' = 1 := by
  have e : createProgressBar 1000000 1000000 16777217 =
      '[' :: (List.replicate 16777216 '=' ++ ['>']) ++ [']'] := by
    rw [createProgressBar_eq, progressPos_full_16777217 1000000 (by norm_num)]
    have hn : (16777217 : Int).toNat = 16777217 := rfl
    have hcells := barCells_of_nonneg 16777216 16777217
    have hmin : min 16777216 16777217 = 16777216 := by norm_num
    have hsub : 16777217 - 16777216 - 1 = 0 := by norm_num
    rw [hmin, if_pos (by norm_num), hsub, List.replicate_zero] at hcells
    rw [hn]
    have hcast : ((16777216 : Nat) : Int) = 16777216 := rfl
    rw [hcast] at hcells
    rw [hcells]
  refine ⟨e, ?_⟩
  rw [e]
  have hne : ('=' == '>') = false := by decide
  simp only [List.count_cons, List.count_append, List.count_replicate, List.count_nil, hne]
  decide

/-- C12, amended: for `T > 0` and `W ≥ 1`, `createProgressBar(0, T, W)` is `[`, the cursor `>`
in cell `0`, `W - 1` blanks and `]` (no filled cell, `W + 2` characters); and for
`1 ≤ W ≤ 16777216` (`2^24`, the widths a `float` holds exactly) `createProgressBar(T, T, W)` is
`[`, `W` filled cells `=` and `]` (no cursor cell, `W + 2` characters). -/
theorem progress_bar_boundaries (T W : Int) (hT : 0 < T) (hW : 1 ≤ W) :
    createProgressBar 0 T W = '[' :: '>' :: List.replicate (W.toNat - 1) ' ' ++ [']'] ∧
    (createProgressBar 0 T W).count '=' = 0 ∧
    ((createProgressBar 0 T W).length : Int) = W + 2 ∧
    (W ≤ 16777216 →
      createProgressBar T T W = '[' :: List.replicate W.toNat '=' ++ [']'] ∧
      (createProgressBar T T W).count '>' = 0 ∧
      ((createProgressBar T T W).length : Int) = W + 2) := by
  have hn : 1 ≤ W.toNat := by omega
  have hWn : ((W.toNat : Nat) : Int) = W := Int.toNat_of_nonneg (by omega)
  have e0 : createProgressBar 0 T W =
      '[' :: '>' :: List.replicate (W.toNat - 1) ' ' ++ [']'] := by
    rw [createProgressBar_eq, progressPos_zero_elapsed]
    have := barCells_of_nonneg 0 W.toNat
    rw [Nat.cast_zero] at this
    rw [this, if_pos (by omega)]
    simp
  refine ⟨e0, ?_, ?_, ?_⟩
  · rw [e0]
    simp [List.count_cons, List.count_append, List.count_replicate]
  · rw [e0]
    simp only [List.length_cons, List.length_append, List.length_replicate, List.length_nil]
    omega
  · intro hmax
    have e1 : createProgressBar T T W = '[' :: List.replicate W.toNat '=' ++ [']'] := by
      rw [createProgressBar_eq, progressPos_full T W hT (by omega) hmax]
      have := barCells_of_nonneg W.toNat W.toNat
      rw [hWn] at this
      rw [this, if_neg (lt_irrefl _)]
      simp
    refine ⟨e1, ?_, ?_⟩
    · rw [e1]
      simp [List.count_cons, List.count_append, List.count_replicate]
    · rw [e1]
      simp only [List.length_cons, List.length_append, List.length_replicate, List.length_nil]
      omega

/-- Witness for C12 (amended): a 3 s track played to its end, the bar of width 30 drawn by
`displayPlayer`. -/
theorem progress_bar_boundaries_witness :
    createProgressBar 3000000 3000000 30 =
      '[' :: List.replicate (30 : Int).toNat '=' ++ [']'] :=
  ((progress_bar_boundaries 3000000 30 (by decide) (by decide)).2.2.2 (by decide)).1

/-- C13, counterexample: with `total = 0` the bar of width `5` is `[>    ]`: the ratio is `0`,
so `pos = 0` and cell `0` holds the cursor `>` instead of a blank. -/
theorem zero_total_bar_has_cursor :
    createProgressBar 2000000 0 5 = ['[', '>', ' ', ' ', ' ', ' ', ']'] ∧
    createProgressBar 2000000 0 5 ≠ '[' :: List.replicate 5 ' ' ++ [']'] := by
  have h : createProgressBar 2000000 0 5 = ['[', '>', ' ', ' ', ' ', ' ', ']'] := by
    rw [createProgressBar_eq, progressPos_zero_duration]
    decide
  rw [h]
  exact ⟨rfl, by decide⟩

/-- C13, amended: with `total = 0` the ratio is taken as `0` whatever `elapsed` is (no
division), and the bar has no filled cell: for `W ≥ 1` it is `[`, the cursor `>` in cell `0`,
`W - 1` blanks and `]`; for `W ≤ 0` it is `[]`. -/
theorem zero_total_bar (elapsed W : Int) :
    progressPos elapsed 0 W = 0 ∧
    createProgressBar elapsed 0 W = createProgressBar 0 0 W ∧
    (createProgressBar elapsed 0 W).count '=' = 0 ∧
    (1 ≤ W →
      createProgressBar elapsed 0 W =
        '[' :: '>' :: List.replicate (W.toNat - 1) ' ' ++ [']']) ∧
    (W ≤ 0 → createProgressBar elapsed 0 W = ['[', ']']) := by
  have hcells : (List.range W.toNat).map (barCell 0) =
      if 0 < W.toNat then '>' :: List.replicate (W.toNat - 1) ' ' else [] := by
    have := barCells_of_nonneg 0 W.toNat
    rw [Nat.cast_zero] at this
    rw [this]
    simp
  have e : createProgressBar elapsed 0 W =
      '[' :: (if 0 < W.toNat then '>' :: List.replicate (W.toNat - 1) ' ' else []) ++ [']'] := by
    rw [createProgressBar_eq, progressPos_zero_duration, hcells]
  refine ⟨progressPos_zero_duration elapsed W, ?_, ?_, ?_, ?_⟩
  · rw [createProgressBar_eq, createProgressBar_eq, progressPos_zero_duration,
      progressPos_zero_duration]
  · rw [e]
    split_ifs <;> simp [List.count_cons, List.count_append, List.count_replicate]
  · intro hW
    rw [e, if_pos (by omega)]
  · intro hW
    rw [e, if_neg (by omega)]
    rfl

/-- Witness for C13 (amended): no duration, bar of width 30. -/
theorem zero_total_bar_witness :
    createProgressBar 7000000 0 30 =
      '[' :: '>' :: List.replicate ((30 : Int).toNat - 1) ' ' ++ [']'] :=
  (zero_total_bar 7000000 30).2.2.2.1 (by decide)

/-- C14, counterexample: 2 s into a 3 s track with width `1`, `round(2/3 * 1) = 1` but the bar
is `[>]`: no filled cell, the cursor in cell `0`. -/
theorem filled_cells_not_rounded :
    specFilledCells 2000000 3000000 1 = 1 ∧
    createProgressBar 2000000 3000000 1 = ['[', '>', ']'] ∧
    (createProgressBar 2000000 3000000 1).count '=' = 0 := by
  have hspec : specFilledCells 2000000 3000000 1 = 1 := by
    norm_num [specFilledCells, round_eq]
  have hpos : progressPos 2000000 3000000 1 = 0 := by
    obtain ⟨_, hlo, hhi, _, _⟩ := progressPos_bounds 2000000 3000000 1 (by norm_num)
      (by norm_num) (by norm_num) (by norm_num) (by norm_num) (by norm_num)
    have h1 : ⌊((2000000 : Int) : ℚ) / ((3000000 : Int) : ℚ) * ((1 : Int) : ℚ)
        - 7 * ((1 : Int) : ℚ) / 16777216⌋ = 0 := by
      rw [Int.floor_eq_iff]
      constructor <;> norm_num
    have h2 : ⌊((2000000 : Int) : ℚ) / ((3000000 : Int) : ℚ) * ((1 : Int) : ℚ)
        + 7 * ((1 : Int) : ℚ) / 16777216⌋ = 0 := by
      rw [Int.floor_eq_iff]
      constructor <;> norm_num
    rw [h1] at hlo
    rw [h2] at hhi
    omega
  have h : createProgressBar 2000000 3000000 1 = ['[', '>', ']'] := by
    rw [createProgressBar_eq, hpos]
    decide
  rw [h]
  exact ⟨hspec, rfl, by decide⟩

/-- C14, amended: for `0 ≤ elapsed ≤ total`, `total > 0` an `Int64` and `0 ≤ W ≤ 2097152`
(`2^21`), the number `k` of filled cells is the `float` product `width * progress` truncated
toward zero (not rounded). That product is within `7 * W / 2^24` of the exact
`elapsed / total * W`, so `k` lies between `floor(elapsed / total * W - 7 * W / 2^24)` and
`floor(elapsed / total * W + 7 * W / 2^24)`: it is `floor(elapsed / total * W)` or a neighbour
of it, and `0 ≤ k ≤ W`. The bar is `[`, `k` cells `=`, then one cursor cell `>` and `W - k - 1`
blanks if `k < W`, and `]`. -/
theorem filled_cells_truncated (elapsed total W : Int) (h0 : 0 ≤ elapsed)
    (h1 : elapsed ≤ total) (ht : 0 < total) (hmax : total ≤ 9223372036854775807)
    (hW0 : 0 ≤ W) (hW : W ≤ 2097152) :
    progressPos elapsed total W = ⌊progressProduct elapsed total W⌋ ∧
    |progressProduct elapsed total W - (elapsed : ℚ) / (total : ℚ) * (W : ℚ)|
      ≤ 7 * (W : ℚ) / 16777216 ∧
    ⌊(elapsed : ℚ) / (total : ℚ) * (W : ℚ) - 7 * (W : ℚ) / 16777216⌋
      ≤ progressPos elapsed total W ∧
    progressPos elapsed total W
      ≤ ⌊(elapsed : ℚ) / (total : ℚ) * (W : ℚ) + 7 * (W : ℚ) / 16777216⌋ ∧
    ⌊(elapsed : ℚ) / (total : ℚ) * (W : ℚ)⌋ - 1 ≤ progressPos elapsed total W ∧
    progressPos elapsed total W ≤ ⌊(elapsed : ℚ) / (total : ℚ) * (W : ℚ)⌋ + 1 ∧
    0 ≤ progressPos elapsed total W ∧ progressPos elapsed total W ≤ W ∧
    createProgressBar elapsed total W =
      '[' :: (List.replicate (progressPos elapsed total W).toNat '=' ++
        (if (progressPos elapsed total W).toNat < W.toNat
         then '>' :: List.replicate (W.toNat - (progressPos elapsed total W).toNat - 1) ' '
         else [])) ++ [']'] ∧
    (createProgressBar elapsed total W).count '=' = (progressPos elapsed total W).toNat := by
  obtain ⟨hfloor, hlo, hhi, hk0, hkW⟩ :=
    progressPos_bounds elapsed total W h0 h1 ht hmax hW0 hW
  have herr := progressProduct_error elapsed total W h0 h1 ht hmax hW0 (by omega)
  have hWq0 : (0 : ℚ) ≤ (W : ℚ) := by exact_mod_cast hW0
  have hWq1 : (W : ℚ) ≤ 2097152 := by exact_mod_cast hW
  have hdelta : 7 * (W : ℚ) / 16777216 ≤ 1 := by linarith
  have hlow : ⌊(elapsed : ℚ) / (total : ℚ) * (W : ℚ)⌋ - 1 ≤ progressPos elapsed total W := by
    refine le_trans ?_ hlo
    rw [← Int.floor_sub_one]
    exact Int.floor_mono (by linarith)
  have hhigh : progressPos elapsed total W ≤ ⌊(elapsed : ℚ) / (total : ℚ) * (W : ℚ)⌋ + 1 := by
    refine le_trans hhi ?_
    rw [← Int.floor_add_one]
    exact Int.floor_mono (by linarith)
  have hcast : (((progressPos elapsed total W).toNat : Nat) : Int) = progressPos elapsed total W :=
    Int.toNat_of_nonneg hk0
  have hmin : min (progressPos elapsed total W).toNat W.toNat =
      (progressPos elapsed total W).toNat := by omega
  have e : createProgressBar elapsed total W =
      '[' :: (List.replicate (progressPos elapsed total W).toNat '=' ++
        (if (progressPos elapsed total W).toNat < W.toNat
         then '>' :: List.replicate (W.toNat - (progressPos elapsed total W).toNat - 1) ' '
         else [])) ++ [']'] := by
    rw [createProgressBar_eq]
    have := barCells_of_nonneg (progressPos elapsed total W).toNat W.toNat
    rw [hcast, hmin] at this
    rw [this]
  refine ⟨hfloor, herr, hlo, hhi, hlow, hhigh, hk0, hkW, e, ?_⟩
  rw [e]
  split_ifs <;> simp [List.count_cons, List.count_append, List.count_replicate]

/-- Witness for C14 (amended): 2 s into a 3 s track, width 30. -/
theorem filled_cells_truncated_witness :
    (createProgressBar 2000000 3000000 30).count '=' =
      (progressPos 2000000 3000000 30).toNat :=
  (filled_cells_truncated 2000000 3000000 30 (by decide) (by decide) (by decide)
    (by decide) (by decide) (by decide)).2.2.2.2.2.2.2.2.2

theorem barCell_eq_cursor_iff (pos : Int) (i : Nat) : barCell pos i = '>' ↔ (i : Int) = pos := by
  unfold barCell
  split_ifs with h1 h2
  · exact ⟨fun h => absurd h (by decide), fun h => absurd h (by omega)⟩
  · exact ⟨fun _ => h2, fun _ => rfl⟩
  · exact ⟨fun h => absurd h (by decide), fun h => absurd h h2⟩

theorem barCells_count_cursor (pos : Int) (n : Nat) :
    ((List.range n).map (barCell pos)).count '>' ≤ 1 := by
  by_cases h : pos < 0
  · rw [barCells_of_neg pos n h]
    simp [List.count_replicate]
  · have hp : ((pos.toNat : Nat) : Int) = pos := Int.toNat_of_nonneg (not_lt.mp h)
    have := barCells_of_nonneg pos.toNat n
    rw [hp] at this
    rw [this]
    split_ifs <;> simp [List.count_cons, List.count_append, List.count_replicate]

/-- C20: for every `elapsed`, `total` and `W ≥ 0`, `createProgressBar` returns `[`, `W` cells
and `]` (`W + 2` characters), with at most one cursor cell `>`; every cell before a cursor cell
is `=` and every cell after it is blank. -/
theorem progress_bar_shape (elapsed total W : Int) (hW : 0 ≤ W) :
    ∃ cells : List Char,
      createProgressBar elapsed total W = '[' :: cells ++ [']'] ∧
      (cells.length : Int) = W ∧
      ((createProgressBar elapsed total W).length : Int) = W + 2 ∧
      (createProgressBar elapsed total W).head? = some '[' ∧
      (createProgressBar elapsed total W).getLast? = some ']' ∧
      cells.count '>' ≤ 1 ∧
      (createProgressBar elapsed total W).count '>' ≤ 1 ∧
      ∀ j, cells[j]? = some '>' →
        ∀ i, (i < j → cells[i]? = some '=') ∧
          (j < i → i < cells.length → cells[i]? = some ' ') := by
  have hWn : ((W.toNat : Nat) : Int) = W := Int.toNat_of_nonneg hW
  have hlen : ((List.range W.toNat).map (barCell (progressPos elapsed total W))).length
      = W.toNat := by simp
  have hget : ∀ i, i < W.toNat →
      ((List.range W.toNat).map (barCell (progressPos elapsed total W)))[i]? =
        some (barCell (progressPos elapsed total W) i) := by
    intro i hi
    rw [List.getElem?_map, List.getElem?_range hi]
    rfl
  have hcount := barCells_count_cursor (progressPos elapsed total W) W.toNat
  refine ⟨(List.range W.toNat).map (barCell (progressPos elapsed total W)),
    createProgressBar_eq elapsed total W, ?_, ?_, ?_, ?_, hcount, ?_, ?_⟩
  · rw [hlen, hWn]
  · rw [createProgressBar_eq]
    simp only [List.length_cons, List.length_append, List.length_nil, hlen]
    omega
  · rw [createProgressBar_eq]
    rfl
  · rw [createProgressBar_eq, List.getLast?_append]
    rfl
  · rw [createProgressBar_eq]
    simp only [List.count_cons, List.count_append, List.count_nil]
    simpa using hcount
  · intro j hj i
    have hjn : j < W.toNat := by
      by_contra hge
      rw [List.getElem?_eq_none (by rw [hlen]; omega)] at hj
      exact absurd hj (by simp)
    rw [hget j hjn] at hj
    have hjpos : (j : Int) = progressPos elapsed total W :=
      (barCell_eq_cursor_iff _ _).mp (Option.some.inj hj)
    constructor
    · intro hij
      rw [hget i (by omega)]
      unfold barCell
      rw [if_pos (by omega)]
    · intro hji hin
      rw [hlen] at hin
      rw [hget i hin]
      unfold barCell
      rw [if_neg (by omega), if_neg (by omega)]

/-- Witness for C20: more elapsed time than duration, width 30. -/
theorem progress_bar_shape_witness :
    ∃ cells : List Char,
      createProgressBar 5000000 3000000 30 = '[' :: cells ++ [']'] ∧
      (cells.length : Int) = 30 ∧
      ((createProgressBar 5000000 3000000 30).length : Int) = 30 + 2 ∧
      (createProgressBar 5000000 3000000 30).head? = some '[' ∧
      (createProgressBar 5000000 3000000 30).getLast? = some ']' ∧
      cells.count '>' ≤ 1 ∧
      (createProgressBar 5000000 3000000 30).count '>' ≤ 1 ∧
      ∀ j, cells[j]? = some '>' →
        ∀ i, (i < j → cells[i]? = some '=') ∧
          (j < i → i < cells.length → cells[i]? = some ' ') :=
  progress_bar_shape 5000000 3000000 30 (by decide)

/-! ## Auto-advance on a render tick -/

/-- C15: in a running session (`stop = false`) a render tick, after drawing the frame, performs
the next-track advance (`music.stop()`, then `loadAndPlay(currentTrack + 1)`, exactly what the
`n` command does) when the engine is `Stopped` and `paused` is false, and in every other case
leaves the current index, the paused flag, the stop flag and the engine unchanged; on a
successful open from a valid index (track count fitting an `int`) the advance leaves the index
at `(i + 1) mod n` and the engine `Playing`. -/
theorem render_tick_auto_advance (s : Player) (drawn now : Int) (opened : Option Int)
    (hrun : s.stop = false) :
    (s.music.status = Status.Stopped ∧ s.paused = false →
      renderStep drawn opened now s =
        (loadAndPlay (s.currentTrack + 1) opened now
          { s with marquee := s.marquee.map (fun m => (m.getDisplayText drawn).2),
                   music := s.music.stop }).2 ∧
      renderStep drawn opened now s =
        command 'n' opened now
          { s with marquee := s.marquee.map (fun m => (m.getDisplayText drawn).2) }) ∧
    (¬ (s.music.status = Status.Stopped ∧ s.paused = false) →
      renderStep drawn opened now s =
        { s with marquee := s.marquee.map (fun m => (m.getDisplayText drawn).2) } ∧
      (renderStep drawn opened now s).currentTrack = s.currentTrack ∧
      (renderStep drawn opened now s).paused = s.paused ∧
      (renderStep drawn opened now s).stop = s.stop ∧
      (renderStep drawn opened now s).music = s.music) ∧
    (s.music.status = Status.Stopped ∧ s.paused = false →
      (s.laguList.length : Int) ≤ INT_MAX → 0 ≤ s.currentTrack →
      s.currentTrack < s.laguList.length →
      ∀ d : Int, opened = some d →
        (renderStep drawn opened now s).currentTrack =
          (s.currentTrack + 1) % s.laguList.length ∧
        (renderStep drawn opened now s).music.status = Status.Playing) := by
  have hadv : s.music.status = Status.Stopped ∧ s.paused = false →
      renderStep drawn opened now s =
        (loadAndPlay (s.currentTrack + 1) opened now
          { s with marquee := s.marquee.map (fun m => (m.getDisplayText drawn).2),
                   music := s.music.stop }).2 := by
    intro h
    simp [renderStep, hrun, h.1, h.2, Music.getStatus]
  refine ⟨fun h => ⟨hadv h, ?_⟩, fun h => ?_, fun h hfit h0 h1 d hd => ?_⟩
  · rw [hadv h, command_next (by decide)]
  · have e : renderStep drawn opened now s =
        { s with marquee := s.marquee.map (fun m => (m.getDisplayText drawn).2) } := by
      simp only [renderStep, hrun, Music.getStatus]
      simp only [Bool.not_false, if_true]
      rw [if_neg]
      simpa using h
    rw [e]
    exact ⟨rfl, rfl, rfl, rfl, rfl⟩
  · subst hd
    have e := hadv h
    have hc := command_next_success
      { s with marquee := s.marquee.map (fun m => (m.getDisplayText drawn).2) } 'n' d now
      (by decide) hfit h0 h1
    rw [command_next (by decide)] at hc
    rw [e]
    refine ⟨hc.1, ?_⟩
    rw [loadAndPlay_success]

/-- Witness for C15: a stopped, unpaused three-track session at the last index: the tick
advances to index `0`. -/
theorem render_tick_auto_advance_witness :
    (renderStep 1 (some 9) 2
      { laguList := [['a'], ['b'], ['c']], currentTrack := 2, stop := false, paused := false,
        music := { status := Status.Stopped, playingOffset := 0, duration := 5 },
        marquee := none }).currentTrack =
      (2 + 1) % (([['a'], ['b'], ['c']] : List (List Char)).length : Int) :=
  ((render_tick_auto_advance
    { laguList := [['a'], ['b'], ['c']], currentTrack := 2, stop := false, paused := false,
      music := { status := Status.Stopped, playingOffset := 0, duration := 5 },
      marquee := none } 1 2 (some 9) rfl).2.2 ⟨rfl, rfl⟩ (by decide) (by decide) (by decide)
      9 rfl).1

/-! ## The folder scan -/

/-- C16: evaluation at the failing input. A regular file `song.Mp3` has an extension that is
`.mp3` up to case, yet the scan leaves it out of the track list, while it keeps `song.mp3` and
`song.MP3`. -/
theorem scan_rejects_mixed_case :
    specExtensionAccepted ['.', 'M', 'p', '3'] = true ∧
    extensionAccepted ['.', 'M', 'p', '3'] = false ∧
    scanFolder
      [{ isRegularFile := true, path := ['s', 'o', 'n', 'g', '.', 'M', 'p', '3'],
         extension := ['.', 'M', 'p', '3'] }] = [] ∧
    scanFolder
      [{ isRegularFile := true, path := ['s', 'o', 'n', 'g', '.', 'm', 'p', '3'],
         extension := ['.', 'm', 'p', '3'] },
       { isRegularFile := true, path := ['s', 'o', 'n', 'g', '.', 'M', 'P', '3'],
         extension := ['.', 'M', 'P', '3'] }] =
      [['s', 'o', 'n', 'g', '.', 'm', 'p', '3'], ['s', 'o', 'n', 'g', '.', 'M', 'P', '3']] := by
  decide

/-! ## The track selection -/

theorem mainStartup_eq_selectTrack (laguList : List (List Char)) (k : Int)
    (opened : Option Int) (now : Int) :
    mainStartup laguList k opened now =
      match selectTrack laguList k with
      | Except.error code => Except.error code
      | Except.ok currentTrack =>
        match loadAndPlay currentTrack opened now
          { laguList := laguList, currentTrack := currentTrack, stop := false, paused := false,
            music := Music.init, marquee := none } with
        | (true, s) => Except.ok s
        | (false, _) => Except.error 1 := by
  unfold mainStartup selectTrack
  split_ifs <;> rfl

/-- C17: for a non-empty track list of length `n` and an entered `int` `k`, `main` exits with
code `1` before the first `loadAndPlay` (whatever the engine would do) if and only if `k` is
outside `[1, n]`; when `1 ≤ k ≤ n` the selection yields `currentTrack = k - 1`, which is the
index `main` passes to the first `loadAndPlay`. -/
theorem selection_validation (laguList : List (List Char)) (k : Int)
    (hne : laguList ≠ []) (hk : k ≤ INT_MAX) :
    (selectTrack laguList k = Except.error 1 ↔ (k < 1 ∨ (laguList.length : Int) < k)) ∧
    (k < 1 ∨ (laguList.length : Int) < k →
      ∀ (opened : Option Int) (now : Int), mainStartup laguList k opened now = Except.error 1) ∧
    (1 ≤ k → k ≤ laguList.length →
      selectTrack laguList k = Except.ok (k - 1) ∧
      ∀ (opened : Option Int) (now : Int),
        mainStartup laguList k opened now =
          match loadAndPlay (k - 1) opened now
            { laguList := laguList, currentTrack := k - 1, stop := false, paused := false,
              music := Music.init, marquee := none } with
          | (true, s) => Except.ok s
          | (false, _) => Except.error 1) := by
  have hempty : laguList.isEmpty = false := by
    cases laguList with
    | nil => exact absurd rfl hne
    | cons a l => rfl
  have hcond : (k < 1 ∨ toSizeT k > laguList.length) ↔ (k < 1 ∨ (laguList.length : Int) < k) := by
    by_cases h1 : k < 1
    · simp [h1]
    · have hsz := toSizeT_of_nonneg (x := k) (by omega) hk
      constructor
      · rintro (h | h)
        · exact Or.inl h
        · right; omega
      · rintro (h | h)
        · exact Or.inl h
        · right; omega
  have hbad : k < 1 ∨ (laguList.length : Int) < k → selectTrack laguList k = Except.error 1 := by
    intro h
    unfold selectTrack
    rw [if_neg (by simp [hempty]), if_pos (hcond.mpr h)]
  have hgood : 1 ≤ k → k ≤ laguList.length → selectTrack laguList k = Except.ok (k - 1) := by
    intro h1 h2
    unfold selectTrack
    rw [if_neg (by simp [hempty]), if_neg (by rw [hcond]; omega)]
  refine ⟨⟨fun h => ?_, hbad⟩, fun h opened now => ?_, fun h1 h2 => ⟨hgood h1 h2, ?_⟩⟩
  · by_contra hn
    rw [hgood (by omega) (by omega)] at h
    exact absurd h (by simp)
  · rw [mainStartup_eq_selectTrack, hbad h]
  · intro opened now
    rw [mainStartup_eq_selectTrack, hgood h1 h2]

/-- Witness for C17: three tracks; the entry `4` is rejected although the file would open. -/
theorem selection_validation_witness :
    mainStartup [['a'], ['b'], ['c']] 4 (some 5) 0 = Except.error 1 :=
  (selection_validation [['a'], ['b'], ['c']] 4 (by decide) (by decide)).2.1
    (Or.inr (by decide)) (some 5) 0

/-! ## Command decoding -/

theorem command_toLower (c1 c2 : Char) (h : c1.toLower = c2.toLower) (opened : Option Int)
    (now : Int) (s : Player) : command c1 opened now s = command c2 opened now s := by
  unfold command
  simp only [h]

/-- C18: the command handler only depends on the lower-case form of the character, so the
upper-case and the lower-case letter of each command `p, s, f, r, n, b, q` cause the same
transition; a character whose lower-case form is none of these letters leaves the whole session
(current index, paused flag, stop flag, engine, marquee) unchanged. -/
theorem command_decoding (s : Player) (opened : Option Int) (now : Int) :
    (∀ c1 c2 : Char, c1.toLower = c2.toLower →
      command c1 opened now s = command c2 opened now s ∧
      inputStep c1 opened now s = inputStep c2 opened now s) ∧
    (∀ c : Char, c ∈ ['p', 's', 'f', 'r', 'n', 'b', 'q'] →
      command c.toUpper opened now s = command c opened now s ∧
      inputStep c.toUpper opened now s = inputStep c opened now s) ∧
    (∀ c : Char, c.toLower ∉ ['p', 's', 'f', 'r', 'n', 'b', 'q'] →
      command c opened now s = s ∧ inputStep c opened now s = s) := by
  have hsame : ∀ c1 c2 : Char, c1.toLower = c2.toLower →
      command c1 opened now s = command c2 opened now s ∧
      inputStep c1 opened now s = inputStep c2 opened now s := by
    intro c1 c2 h
    have hc := command_toLower c1 c2 h opened now s
    refine ⟨hc, ?_⟩
    unfold inputStep
    rw [hc]
  refine ⟨hsame, ?_, ?_⟩
  · intro c hc
    apply hsame
    simp only [List.mem_cons, List.mem_singleton, List.not_mem_nil, or_false] at hc
    rcases hc with rfl | rfl | rfl | rfl | rfl | rfl | rfl <;> decide
  · intro c hc
    simp only [List.mem_cons, List.mem_singleton, List.not_mem_nil, or_false, not_or] at hc
    obtain ⟨h1, h2, h3, h4, h5, h6, h7⟩ := hc
    have e : command c opened now s = s := by
      unfold command
      simp only [h1, h2, h3, h4, h5, h6, h7, if_false]
    refine ⟨e, ?_⟩
    unfold inputStep
    rw [e]
    split_ifs <;> rfl

/-- Witness for C18: the character `x` is ignored by a playing session. -/
theorem command_decoding_witness :
    command 'x' (some 7) 1
      { laguList := [['a'], ['b']], currentTrack := 0, stop := false, paused := false,
        music := { status := Status.Playing, playingOffset := 3, duration := 5 },
        marquee := none } =
      { laguList := [['a'], ['b']], currentTrack := 0, stop := false, paused := false,
        music := { status := Status.Playing, playingOffset := 3, duration := 5 },
        marquee := none } :=
  ((command_decoding
    { laguList := [['a'], ['b']], currentTrack := 0, stop := false, paused := false,
      music := { status := Status.Playing, playingOffset := 3, duration := 5 },
      marquee := none } (some 7) 1).2.2 'x' (by decide)).1

/-! ## The next-track preview -/

/-- C19: with `n ≥ 1` tracks (a count that fits an `int`) and a current index `i` in `[0, n)`,
the index of the render loop's next-track preview is `(i + 1) mod n` and equals the index that
`loadAndPlay(i + 1)`, the `n` command and the auto-advance of a render tick commit on a
successful open. -/
theorem preview_matches_navigation (s : Player) (d now : Int)
    (hfit : (s.laguList.length : Int) ≤ INT_MAX)
    (h0 : 0 ≤ s.currentTrack) (h1 : s.currentTrack < s.laguList.length) :
    nextTrackIndex s = (s.currentTrack + 1) % s.laguList.length ∧
    (loadAndPlay (s.currentTrack + 1) (some d) now s).2.currentTrack = nextTrackIndex s ∧
    (command 'n' (some d) now s).currentTrack = nextTrackIndex s ∧
    (command 'N' (some d) now s).currentTrack = nextTrackIndex s ∧
    (∀ drawn : Int, s.stop = false → s.music.status = Status.Stopped → s.paused = false →
      (renderStep drawn (some d) now s).currentTrack = nextTrackIndex s) := by
  have hsz := toSizeT_of_nonneg (x := s.currentTrack + 1) (by omega) (by omega)
  have hnext : nextTrackIndex s = (s.currentTrack + 1) % s.laguList.length := by
    unfold nextTrackIndex
    have hlt : toSizeT (s.currentTrack + 1) % s.laguList.length < s.laguList.length :=
      Nat.mod_lt _ (by omega)
    rw [toInt_of_le (by omega)]
    push_cast
    rw [hsz]
  have hn := (command_next_success s 'n' d now (by decide) hfit h0 h1).1
  have hN := (command_next_success s 'N' d now (by decide) hfit h0 h1).1
  refine ⟨hnext, ?_, ?_, ?_, ?_⟩
  · rw [hnext, ← hn, command_next (by decide), loadAndPlay_success, loadAndPlay_success]
  · rw [hnext, hn]
  · rw [hnext, hN]
  · intro drawn hrun hst hp
    rw [hnext]
    have hadv : renderStep drawn (some d) now s =
        command 'n' (some d) now
          { s with marquee := s.marquee.map (fun m => (m.getDisplayText drawn).2) } := by
      rw [command_next (by decide)]
      simp [renderStep, hrun, hst, hp, Music.getStatus]
    rw [hadv]
    exact (command_next_success
      { s with marquee := s.marquee.map (fun m => (m.getDisplayText drawn).2) } 'n' d now
      (by decide) hfit h0 h1).1

/-- Witness for C19: three tracks at the last index: the preview and `n` both give index `0`. -/
theorem preview_matches_navigation_witness :
    (command 'n' (some 7) 1
      { laguList := [['a'], ['b'], ['c']], currentTrack := 2, stop := false, paused := false,
        music := { status := Status.Playing, playingOffset := 3, duration := 5 },
        marquee := none }).currentTrack =
      nextTrackIndex
        { laguList := [['a'], ['b'], ['c']], currentTrack := 2, stop := false, paused := false,
          music := { status := Status.Playing, playingOffset := 3, duration := 5 },
          marquee := none } :=
  (preview_matches_navigation
    { laguList := [['a'], ['b'], ['c']], currentTrack := 2, stop := false, paused := false,
      music := { status := Status.Playing, playingOffset := 3, duration := 5 },
      marquee := none } 7 1 (by decide) (by decide) (by decide)).2.2.1

end CliAudioPlayer
